import Mathlib

/-!
# Node graph IR (`bvm_nodegraph.h`) and particle events (`events.cpp`)

A shallow embedding of the node-graph intermediate representation of the
`blenvm` compiler and of `AgeReachedEvent` of the particle simulation,
followed by the properties proved about them.

Conventions of the embedding:

* a `NodeInstance *` is an address (`NodePtr`, a natural number, `0` is `NULL`);
  the instances live in the `heap` of the graph state, address `p + 1` in
  slot `p`;
* `std::string` is `String`, `std::map<string, T>` is an association list
  read with `mapFind` and written with `mapSet`;
* `const NodeType *` and `const NodeSocket *` point to immutable catalogue
  data and are modelled by the value pointed to (`Option` for a nullable one);
* dereferencing an address that holds no instance is undefined behaviour in
  C++; operations return `none` there.
-/

namespace bvm

/-! ## Socket pairs -/

/-- Address of a `NodeInstance`; `0` is the null pointer. -/
abbrev NodePtr := Nat

/-- The null `NodeInstance *`. -/
def NULL : NodePtr := 0

/-- The struct `ConstSocketPair`. -/
structure ConstSocketPair where
  node : NodePtr
  socket : String
  deriving DecidableEq, Repr

/-- The struct `SocketPair`. -/
structure SocketPair where
  node : NodePtr
  socket : String
  deriving DecidableEq, Repr

/-- The comparison `ConstSocketPair::operator <`. -/
def ConstSocketPair.lt (a other : ConstSocketPair) : Bool :=
  if a.node < other.node then true
  else if a.node > other.node then false
  else decide (a.socket < other.socket)

/-- The conversion `ConstSocketPair::operator bool`. -/
def ConstSocketPair.toBool (a : ConstSocketPair) : Bool :=
  a.node != NULL && !(a.socket == "")

/-- The conversion `SocketPair::operator ConstSocketPair`. -/
def SocketPair.toConstSocketPair (a : SocketPair) : ConstSocketPair :=
  ConstSocketPair.mk a.node a.socket

/-- The comparison `SocketPair::operator <`. -/
def SocketPair.lt (a other : SocketPair) : Bool :=
  if a.node < other.node then true
  else if a.node > other.node then false
  else decide (a.socket < other.socket)

/-- The conversion `SocketPair::operator bool`. -/
def SocketPair.toBool (a : SocketPair) : Bool :=
  a.node != NULL && !(a.socket == "")

/-! ## Types, sockets and node types -/

/-- Modelled from the spec: the enum `BVMType` of `bvm_util_typedesc.h`, which
is not among the sources; its members are the source types of the converter
dispatch (`add_float_converter`, `add_float3_converter`, `add_float4_converter`,
`add_int_converter`, `add_matrix44_converter`). -/
inductive BVMType where
  | BVM_FLOAT
  | BVM_FLOAT3
  | BVM_FLOAT4
  | BVM_INT
  | BVM_MATRIX44
  deriving DecidableEq, Repr

/-- Modelled from the spec: the struct `TypeDesc` of `bvm_util_typedesc.h`, a
type descriptor whose equality decides whether a link needs a conversion. -/
structure TypeDesc where
  base_type : BVMType
  deriving DecidableEq, Repr

/-- Modelled from the spec: the class `Value` of `bvm_util_typedesc.h`, an
immutable typed payload; the payload is kept uninterpreted. -/
structure Value where
  typedesc : TypeDesc
  payload : Nat
  deriving DecidableEq, Repr

/-- The enum `eNodeSocketValueType`. -/
inductive eNodeSocketValueType where
  | VALUE_CONSTANT
  | VALUE_VARIABLE
  | VALUE_FUNCTION
  deriving DecidableEq, Repr

/-- The struct `NodeSocket`; `default_value` is a nullable `Value *`. -/
structure NodeSocket where
  name : String
  typedesc : TypeDesc
  default_value : Option Value
  value_type : eNodeSocketValueType
  deriving DecidableEq, Repr

/-- The struct `NodeType`. -/
structure NodeType where
  name : String
  inputs : List NodeSocket
  outputs : List NodeSocket
  is_pass : Bool
  deriving DecidableEq, Repr

/-- Modelled from the spec: the lookup shared by `NodeType::find_input(const
string &)` and `NodeType::find_output(const string &)`, whose bodies are not
among the sources: the socket of that name if one was added, else null. -/
def find_socket_by_name (sockets : List NodeSocket) (name : String) : Option NodeSocket :=
  sockets.find? (fun s => s.name == name)

/-- Modelled from the spec: the lookup shared by `NodeType::find_input(int)`
and `NodeType::find_output(int)`, whose bodies are not among the sources: the
socket at that position, null when there is none. -/
def find_socket_by_index (sockets : List NodeSocket) (index : Int) : Option NodeSocket :=
  if 0 ≤ index then sockets[index.toNat]? else none

/-- Modelled from the spec: the overloads `NodeType::find_input(const
NodeSocket *)` and `NodeType::find_output(const NodeSocket *)`, whose bodies
are not among the sources. The header calls them a stub for the case that the
socket is passed directly and the spec a fast path without a second traversal:
the pointer passed is returned as it is, null included, whether or not the
socket belongs to the node type. -/
def find_socket_resolved (socket : Option NodeSocket) : Option NodeSocket :=
  socket

/-- The argument of the template parameter `ToT` of `add_link`, and of the
overloads of `find_input` and `find_output`: a socket is addressed by name, by
position, or by an already resolved, nullable `const NodeSocket *`. -/
inductive SocketKey where
  | name (s : String)
  | index (i : Int)
  | resolved (socket : Option NodeSocket)
  deriving DecidableEq, Repr

/-- The lookup `NodeType::find_input(const string &name)`. -/
def NodeType.find_input_name (self : NodeType) (name : String) : Option NodeSocket :=
  find_socket_by_name self.inputs name

/-- The lookup `NodeType::find_output(const string &name)`. -/
def NodeType.find_output_name (self : NodeType) (name : String) : Option NodeSocket :=
  find_socket_by_name self.outputs name

/-- The lookup `NodeType::find_input`, overloads by name, by index and by
socket pointer. -/
def NodeType.find_input (self : NodeType) (key : SocketKey) : Option NodeSocket :=
  match key with
  | SocketKey.name s => self.find_input_name s
  | SocketKey.index i => find_socket_by_index self.inputs i
  | SocketKey.resolved socket => find_socket_resolved socket

/-- The lookup `NodeType::find_output`, overloads by name, by index and by
socket pointer. -/
def NodeType.find_output (self : NodeType) (key : SocketKey) : Option NodeSocket :=
  match key with
  | SocketKey.name s => self.find_output_name s
  | SocketKey.index i => find_socket_by_index self.outputs i
  | SocketKey.resolved socket => find_socket_resolved socket

/-! ## Maps -/

/-- Lookup in a `std::map<string, T>` (`find`). -/
def mapFind {β : Type} (m : List (String × β)) (k : String) : Option β :=
  match m with
  | [] => none
  | (k', v) :: rest => if k' = k then some v else mapFind rest k

/-- Assignment `m[k] = v` in a `std::map<string, T>`. -/
def mapSet {β : Type} (m : List (String × β)) (k : String) (v : β) : List (String × β) :=
  match m with
  | [] => [(k, v)]
  | (k', v') :: rest => if k' = k then (k, v) :: rest else (k', v') :: mapSet rest k v

/-! ## Node instances -/

/-- The struct `NodeInstance::InputInstance`. `graph_input` is the position of
the `NodeGraphInput` pointed to in the graph's input list, `link_node` the
address of the producing instance, `link_socket` its output socket. -/
structure InputInstance where
  graph_input : Option Nat
  link_node : NodePtr
  link_socket : Option NodeSocket
  value : Option Value
  deriving DecidableEq, Repr

/-- The struct `NodeInstance::OutputInstance`. -/
structure OutputInstance where
  value : Option Value
  deriving DecidableEq, Repr

/-- The struct `NodeInstance`. -/
structure NodeInstance where
  type : NodeType
  name : String
  inputs : List (String × InputInstance)
  outputs : List (String × OutputInstance)
  deriving DecidableEq, Repr

/-- Modelled from the spec: the constructor `NodeInstance(type, name)`, whose
body is not among the sources: one binding per declared input socket, holding
the socket's default as a constant, and one value placeholder per declared
output socket. -/
def NodeInstance.create (type : NodeType) (name : String) : NodeInstance :=
  NodeInstance.mk type name
    (type.inputs.map (fun s => (s.name, InputInstance.mk none NULL none s.default_value)))
    (type.outputs.map (fun s => (s.name, OutputInstance.mk none)))

/-- Modelled from the spec: `NodeInstance::set_input_link`, whose body is not
among the sources: fails when the type has no input socket of that name,
otherwise the slot becomes a link, discarding the previous binding. -/
def NodeInstance.set_input_link (self : NodeInstance) (name : String)
    (from_node : NodePtr) (from_socket : Option NodeSocket) : Bool × NodeInstance :=
  match self.type.find_input_name name with
  | none => (false, self)
  | some _ =>
    (true, { self with inputs := mapSet self.inputs name
                                   (InputInstance.mk none from_node from_socket none) })

/-- Modelled from the spec: `NodeInstance::set_input_value(name, Value *)`,
whose body is not among the sources: fails when the type has no input socket of
that name, otherwise the slot becomes a constant, discarding the previous
binding. -/
def NodeInstance.set_input_value (self : NodeInstance) (name : String)
    (value : Option Value) : Bool × NodeInstance :=
  match self.type.find_input_name name with
  | none => (false, self)
  | some _ =>
    (true, { self with inputs := mapSet self.inputs name
                                   (InputInstance.mk none NULL none value) })

/-- Modelled from the spec: `NodeInstance::set_input_extern`, whose body is not
among the sources: fails when the type has no input socket of that name,
otherwise the slot becomes an external graph input, discarding the previous
binding. -/
def NodeInstance.set_input_extern (self : NodeInstance) (name : String)
    (graph_input : Option Nat) : Bool × NodeInstance :=
  match self.type.find_input_name name with
  | none => (false, self)
  | some _ =>
    (true, { self with inputs := mapSet self.inputs name
                                   (InputInstance.mk graph_input NULL none none) })

/-- Modelled from the spec: `NodeInstance::set_output_value(name, Value *)`,
whose body is not among the sources: fails when the type has no output socket
of that name, otherwise stores the value in the output placeholder. -/
def NodeInstance.set_output_value (self : NodeInstance) (name : String)
    (value : Option Value) : Bool × NodeInstance :=
  match self.type.find_output_name name with
  | none => (false, self)
  | some _ =>
    (true, { self with outputs := mapSet self.outputs name (OutputInstance.mk value) })

/-- Outcome of a literal-taking setter: the returned flag, the instance after
the call and the number of calls made to `Value::create`. -/
structure SetterOutcome where
  result : Bool
  node : NodeInstance
  values_created : Nat
  deriving DecidableEq, Repr

/-- The template `NodeInstance::set_input_value<T>(name, const T &value)`.
`create` is the overload `Value::create(const TypeDesc &, T)` the template
argument selects. -/
def NodeInstance.set_input_value_T {T : Type} (create : TypeDesc → T → Option Value)
    (self : NodeInstance) (name : String) (value : T) : SetterOutcome :=
  match self.type.find_input_name name with
  | some socket =>
    let r := self.set_input_value name (create socket.typedesc value)
    SetterOutcome.mk r.1 r.2 1
  | none => SetterOutcome.mk false self 0

/-- The template `NodeInstance::set_output_value<T>(name, const T &value)`.
`create` is the overload `Value::create(const TypeDesc &, T)` the template
argument selects. -/
def NodeInstance.set_output_value_T {T : Type} (create : TypeDesc → T → Option Value)
    (self : NodeInstance) (name : String) (value : T) : SetterOutcome :=
  match self.type.find_output_name name with
  | some socket =>
    let r := self.set_output_value name (create socket.typedesc value)
    SetterOutcome.mk r.1 r.2 1
  | none => SetterOutcome.mk false self 0

/-! ## Node graphs -/

/-- The struct `NodeGraphInput`. -/
structure NodeGraphInput where
  name : String
  type : BVMType
  value : Option Value
  deriving DecidableEq, Repr

/-- The struct `NodeGraphOutput`. -/
structure NodeGraphOutput where
  name : String
  type : BVMType
  default_value : Option Value
  link_node : NodePtr
  link_socket : Option NodeSocket
  deriving DecidableEq, Repr

/-- The struct `NodeGraph` together with the instances it owns: `heap` holds
the `NodeInstance` objects allocated so far (slot `p` is address `p + 1`, a
freed slot is `none`), `nodes` is the map from instance name to address. -/
structure NodeGraph where
  heap : List (Option NodeInstance)
  nodes : List (String × NodePtr)
  inputs : List NodeGraphInput
  outputs : List NodeGraphOutput
  deriving DecidableEq, Repr

/-- Read through a `NodeInstance *`; `none` for null and for an address that
holds no instance. -/
def NodeGraph.deref (g : NodeGraph) (p : NodePtr) : Option NodeInstance :=
  match p with
  | 0 => none
  | q + 1 => (g.heap[q]?).join

/-- Write through a `NodeInstance *`. -/
def NodeGraph.store (g : NodeGraph) (p : NodePtr) (inst : NodeInstance) : NodeGraph :=
  match p with
  | 0 => g
  | q + 1 => { g with heap := g.heap.set q (some inst) }

/-- Allocation `new NodeInstance(...)`: the instance and its fresh address. -/
def NodeGraph.alloc (g : NodeGraph) (inst : NodeInstance) : NodeGraph × NodePtr :=
  ({ g with heap := g.heap ++ [some inst] }, g.heap.length + 1)

/-- A converter of the dispatch table: the node type to instantiate, the input
socket the source is wired into and the output socket that replaces it. -/
structure Converter where
  node_type : String
  input : String
  output : String
  deriving DecidableEq, Repr

/-- The catalogue data the graph code reads but the header does not contain:
the static registry `NodeGraph::node_types` (filled by `nodes_init`) and the
table of available conversions, by source and target type. -/
structure Registry where
  node_types : List (String × NodeType)
  converters : BVMType → BVMType → Option Converter

/-- Modelled from the spec: `NodeGraph::find_node_type`, whose body is not
among the sources: lookup by name, null if absent. -/
def Registry.find_node_type (reg : Registry) (name : String) : Option NodeType :=
  mapFind reg.node_types name

/-- Search of an unused instance name: `base`, extended by underscores while
it is taken. -/
def unique_name_from (used : List String) (base : String) : Nat → String
  | 0 => base
  | fuel + 1 =>
    if base ∈ used then unique_name_from (used.filter (fun u => u ≠ base)) (base ++ "_") fuel
    else base

/-- Modelled from the spec: the naming of `NodeGraph::add_node`. The spec asks
for an instance name that is unique within the graph and leaves the scheme
open; here the requested name, or the type name when none is given, is
extended by underscores until it is unused. -/
def NodeGraph.unique_name (g : NodeGraph) (type name : String) : String :=
  unique_name_from (g.nodes.map Prod.fst) (if name = "" then type else name) g.nodes.length

/-- Modelled from the spec: `NodeGraph::add_node(type, name = "")`, whose body
is not among the sources: null when the type is not registered, otherwise a
new instance of the type under a name unique in the graph. -/
def NodeGraph.add_node (reg : Registry) (g : NodeGraph) (type : String)
    (name : String) : NodeGraph × NodePtr :=
  match reg.find_node_type type with
  | none => (g, NULL)
  | some nodetype =>
    let final := g.unique_name type name
    let r := g.alloc (NodeInstance.create nodetype final)
    ({ r.1 with nodes := r.1.nodes ++ [(final, r.2)] }, r.2)

/-- Modelled from the spec: the body shared by the per-source-type converters:
without a table entry the result is the null pair and the graph is untouched;
with one, the converter type is instantiated, the source wired into its input
and its output returned. -/
def NodeGraph.add_converter (reg : Registry) (g : NodeGraph) (from_ : SocketPair)
    (conv : Option Converter) : Option (NodeGraph × SocketPair) :=
  match conv with
  | none => some (g, SocketPair.mk NULL "")
  | some c =>
    let r := g.add_node reg c.node_type ""
    match r.1.deref r.2, r.1.deref from_.node with
    | some node, some from_inst =>
      let node1 := (node.set_input_link c.input from_.node
                      (from_inst.type.find_output_name from_.socket)).2
      some (r.1.store r.2 node1, SocketPair.mk r.2 c.output)
    | _, _ => none

/-- Modelled from the spec: `NodeGraph::add_float_converter`. -/
def NodeGraph.add_float_converter (reg : Registry) (g : NodeGraph) (from_ : SocketPair)
    (to_type : BVMType) : Option (NodeGraph × SocketPair) :=
  g.add_converter reg from_ (reg.converters BVMType.BVM_FLOAT to_type)

/-- Modelled from the spec: `NodeGraph::add_float3_converter`. -/
def NodeGraph.add_float3_converter (reg : Registry) (g : NodeGraph) (from_ : SocketPair)
    (to_type : BVMType) : Option (NodeGraph × SocketPair) :=
  g.add_converter reg from_ (reg.converters BVMType.BVM_FLOAT3 to_type)

/-- Modelled from the spec: `NodeGraph::add_float4_converter`. -/
def NodeGraph.add_float4_converter (reg : Registry) (g : NodeGraph) (from_ : SocketPair)
    (to_type : BVMType) : Option (NodeGraph × SocketPair) :=
  g.add_converter reg from_ (reg.converters BVMType.BVM_FLOAT4 to_type)

/-- Modelled from the spec: `NodeGraph::add_int_converter`. -/
def NodeGraph.add_int_converter (reg : Registry) (g : NodeGraph) (from_ : SocketPair)
    (to_type : BVMType) : Option (NodeGraph × SocketPair) :=
  g.add_converter reg from_ (reg.converters BVMType.BVM_INT to_type)

/-- Modelled from the spec: `NodeGraph::add_matrix44_converter`. -/
def NodeGraph.add_matrix44_converter (reg : Registry) (g : NodeGraph) (from_ : SocketPair)
    (to_type : BVMType) : Option (NodeGraph × SocketPair) :=
  g.add_converter reg from_ (reg.converters BVMType.BVM_MATRIX44 to_type)

/-- Modelled from the spec: `NodeGraph::add_type_converter`, whose body is not
among the sources: the source itself when the types are equal, otherwise the
converter selected by the type of the source socket. -/
def NodeGraph.add_type_converter (reg : Registry) (g : NodeGraph) (from_ : SocketPair)
    (to_typedesc : TypeDesc) : Option (NodeGraph × SocketPair) :=
  match g.deref from_.node with
  | none => none
  | some from_inst =>
    match from_inst.type.find_output_name from_.socket with
    | none => none
    | some from_socket =>
      if from_socket.typedesc = to_typedesc then some (g, from_)
      else
        match from_socket.typedesc.base_type with
        | BVMType.BVM_FLOAT => g.add_float_converter reg from_ to_typedesc.base_type
        | BVMType.BVM_FLOAT3 => g.add_float3_converter reg from_ to_typedesc.base_type
        | BVMType.BVM_FLOAT4 => g.add_float4_converter reg from_ to_typedesc.base_type
        | BVMType.BVM_INT => g.add_int_converter reg from_ to_typedesc.base_type
        | BVMType.BVM_MATRIX44 => g.add_matrix44_converter reg from_ to_typedesc.base_type

/-- The template `NodeGraph::add_link(NodeInstance *from_node, FromT from,
NodeInstance *to_node, ToT to, bool autoconvert)`. `from` is a socket name,
as `SocketPair(from_node, from)` requires. The result is `none` where the C++
code dereferences an address that holds no instance. -/
def NodeGraph.add_link (reg : Registry) (g : NodeGraph) (from_node : NodePtr)
    (from_ : String) (to_node : NodePtr) (to_ : SocketKey) (autoconvert : Bool) :
    Option (Bool × NodeGraph) :=
  if to_node = NULL ∨ from_node = NULL then some (false, g)
  else
    match g.deref from_node, g.deref to_node with
    | some from_inst, some to_inst =>
      match from_inst.type.find_output_name from_, to_inst.type.find_input to_ with
      | some _, some to_socket =>
        let conv := if autoconvert
          then g.add_type_converter reg (SocketPair.mk from_node from_) to_socket.typedesc
          else some (g, SocketPair.mk from_node from_)
        match conv with
        | none => none
        | some (g1, converted) =>
          if converted.node = NULL then some (false, g1)
          else
            match g1.deref converted.node, g1.deref to_node with
            | some conv_inst, some to_inst1 =>
              let conv_socket := conv_inst.type.find_output_name converted.socket
              let r := to_inst1.set_input_link to_socket.name converted.node conv_socket
              some (true, g1.store to_node r.2)
            | _, _ => none
      | _, _ => some (false, g)
    | _, _ => none

/-- The binding held by the input `name` of the instance at `p`, if the
instance exists and has the slot. -/
def NodeGraph.input_binding (g : NodeGraph) (p : NodePtr) (name : String) :
    Option InputInstance :=
  match g.deref p with
  | none => none
  | some inst => mapFind inst.inputs name

/-! ## The finalize pipeline -/

/-- Modelled from the spec: the upstream source of a pass node, the binding of
the first input socket of its type. -/
def NodeInstance.pass_source (self : NodeInstance) : Option InputInstance :=
  match self.type.inputs with
  | [] => none
  | socket :: _ => mapFind self.inputs socket.name

/-- Modelled from the spec: the rewiring of one consumer binding in
`NodeGraph::skip_pass_nodes`, whose body is not among the sources. A binding
that links to a pass node is replaced by the pass node's own upstream source,
repeatedly, until it no longer links to a pass node. The result is `none`,
a structural error, when the link leads to no instance, when a pass node has
no upstream source, or when the walk exceeds `fuel` pass nodes, which only a
cycle of pass nodes does when `fuel` is the number of instance slots
(`NodeGraph.skip_pass_fuel_enough`). -/
def NodeGraph.skip_pass (g : NodeGraph) : Nat → InputInstance → Option InputInstance
  | fuel, binding =>
    if binding.link_node = NULL then some binding
    else
      match g.deref binding.link_node with
      | none => none
      | some inst =>
        if inst.type.is_pass then
          match fuel with
          | 0 => none
          | fuel' + 1 =>
            match inst.pass_source with
            | none => none
            | some upstream => g.skip_pass fuel' upstream
        else some binding

/-- The walk of `skip_pass` from `binding` to the binding `result` that
replaces it, with the addresses of the pass nodes skipped, in order. -/
inductive NodeGraph.PassWalk (g : NodeGraph) :
    InputInstance → List NodePtr → InputInstance → Prop where
  | unlinked (b : InputInstance) : b.link_node = NULL → NodeGraph.PassWalk g b [] b
  | producer (b : InputInstance) (inst : NodeInstance) :
      b.link_node ≠ NULL → g.deref b.link_node = some inst → inst.type.is_pass = false →
      NodeGraph.PassWalk g b [] b
  | skip (b upstream result : InputInstance) (inst : NodeInstance) (rest : List NodePtr) :
      b.link_node ≠ NULL → g.deref b.link_node = some inst → inst.type.is_pass = true →
      inst.pass_source = some upstream → NodeGraph.PassWalk g upstream rest result →
      NodeGraph.PassWalk g b (b.link_node :: rest) result

/-- Map a fallible function over a list; fails when it fails on an element. -/
def mapOption {α β : Type} (f : α → Option β) : List α → Option (List β)
  | [] => some []
  | x :: rest =>
    match f x, mapOption f rest with
    | some y, some ys => some (y :: ys)
    | _, _ => none

/-- Modelled from the spec: `skip_pass_nodes` on the inputs of one instance. -/
def NodeGraph.skip_pass_inputs (g : NodeGraph) (inst : NodeInstance) : Option NodeInstance :=
  match mapOption (fun kb => match g.skip_pass g.heap.length kb.2 with
                             | some b => some (kb.1, b)
                             | none => none) inst.inputs with
  | some inputs => some { inst with inputs := inputs }
  | none => none

/-- Modelled from the spec: `skip_pass_nodes` on the link of one graph output. -/
def NodeGraph.skip_pass_output (g : NodeGraph) (output : NodeGraphOutput) :
    Option NodeGraphOutput :=
  match g.skip_pass g.heap.length
      (InputInstance.mk none output.link_node output.link_socket none) with
  | some b => some { output with link_node := b.link_node, link_socket := b.link_socket }
  | none => none

/-- Modelled from the spec: `NodeGraph::skip_pass_nodes`, whose body is not
among the sources: every consumer link, of an instance input or of a graph
output, that points at a pass node is rewired to the ultimate producer. -/
def NodeGraph.skip_pass_nodes (g : NodeGraph) : Option NodeGraph :=
  match mapOption (fun slot => match slot with
                               | none => some none
                               | some inst =>
                                 match g.skip_pass_inputs inst with
                                 | some inst1 => some (some inst1)
                                 | none => none) g.heap,
        mapOption g.skip_pass_output g.outputs with
  | some heap, some outputs => some { g with heap := heap, outputs := outputs }
  | _, _ => none

/-- The instances the inputs of the instance at `p` link to. -/
def NodeGraph.link_targets (g : NodeGraph) (p : NodePtr) : List NodePtr :=
  match g.deref p with
  | none => []
  | some inst => (inst.inputs.map (fun kb => kb.2.link_node)).filter (fun q => q ≠ NULL)

/-- The instances the graph outputs link to. -/
def NodeGraph.output_targets (g : NodeGraph) : List NodePtr :=
  (g.outputs.map (fun o => o.link_node)).filter (fun q => q ≠ NULL)

/-- Modelled from the spec: the backward walk of `remove_unused_nodes`: a
worklist of instances to visit and the set of instances visited so far. -/
def NodeGraph.mark (g : NodeGraph) : Nat → List NodePtr → List NodePtr → List NodePtr
  | 0, _, visited => visited
  | _ + 1, [], visited => visited
  | fuel + 1, p :: rest, visited =>
    if p ∈ visited then g.mark fuel rest visited
    else g.mark fuel (g.link_targets p ++ rest) (p :: visited)

/-- A number of steps the backward walk cannot exceed: every step either drops
a worklist entry or visits a new instance, and the worklist only ever receives
the output links and the input links of visited instances. -/
def NodeGraph.mark_fuel (g : NodeGraph) : Nat :=
  g.output_targets.length +
    ((List.range g.heap.length).map (fun q => 1 + (g.link_targets (q + 1)).length)).sum

/-- The part of `mark_fuel` that the instances not yet visited account for. -/
def NodeGraph.unvisited_cost (g : NodeGraph) (visited : List NodePtr) : Nat :=
  (((List.range g.heap.length).filter (fun q => q + 1 ∉ visited)).map
    (fun q => 1 + (g.link_targets (q + 1)).length)).sum

/-- Modelled from the spec: the instances reachable backward from the links of
the graph outputs. -/
def NodeGraph.used_nodes (g : NodeGraph) : List NodePtr :=
  g.mark g.mark_fuel g.output_targets []

/-- Modelled from the spec: `NodeGraph::remove_unused_nodes`, whose body is not
among the sources: every instance that the backward walk from the graph
outputs does not reach is removed from the map and freed. -/
def NodeGraph.remove_unused_nodes (g : NodeGraph) : NodeGraph :=
  { g with
    nodes := g.nodes.filter (fun e => decide (e.2 ∈ g.used_nodes)),
    heap := g.heap.mapIdx (fun q slot => if q + 1 ∈ g.used_nodes then slot else none) }

/-- Modelled from the spec: `NodeGraph::finalize`, whose body is not among the
sources: pass-node elision, then dead-node removal; `none` when the elision
reports a structural error. -/
def NodeGraph.finalize (g : NodeGraph) : Option NodeGraph :=
  match g.skip_pass_nodes with
  | some g1 => some g1.remove_unused_nodes
  | none => none

/-- The instance at `p` is reachable by following input links backward from
the link of some graph output, through instances of the set `S` only. -/
inductive NodeGraph.ReachableWithin (g : NodeGraph) (S : NodePtr → Prop) : NodePtr → Prop where
  | output (o : NodeGraphOutput) (p : NodePtr) :
      o ∈ g.outputs → o.link_node = p → p ≠ NULL → NodeGraph.ReachableWithin g S p
  | input (q p : NodePtr) (inst : NodeInstance) (key : String) (b : InputInstance) :
      NodeGraph.ReachableWithin g S q → S q → g.deref q = some inst →
      (key, b) ∈ inst.inputs → b.link_node = p → p ≠ NULL → NodeGraph.ReachableWithin g S p

/-- The instance at `p` is reachable by following input links backward from
the link of some graph output. -/
inductive NodeGraph.Reachable (g : NodeGraph) : NodePtr → Prop where
  | output (o : NodeGraphOutput) (p : NodePtr) :
      o ∈ g.outputs → o.link_node = p → p ≠ NULL → NodeGraph.Reachable g p
  | input (q p : NodePtr) (inst : NodeInstance) (key : String) (b : InputInstance) :
      NodeGraph.Reachable g q → g.deref q = some inst →
      (key, b) ∈ inst.inputs → b.link_node = p → p ≠ NULL → NodeGraph.Reachable g p

/-! ## A small catalogue and graph, used to evaluate the operations -/

/-- A socket of the given name and type, without default. -/
def exSocket (name : String) (t : BVMType) : NodeSocket :=
  NodeSocket.mk name (TypeDesc.mk t) none eNodeSocketValueType.VALUE_VARIABLE

/-- A registry with an integer source, a float function whose input defaults to
a constant, a pass node and the int-to-float converter. -/
def exReg : Registry where
  node_types := [
    ("VALUE_INT", NodeType.mk "VALUE_INT" [] [exSocket "value" BVMType.BVM_INT] false),
    ("SIN", NodeType.mk "SIN"
      [NodeSocket.mk "value" (TypeDesc.mk BVMType.BVM_FLOAT)
        (some (Value.mk (TypeDesc.mk BVMType.BVM_FLOAT) 0)) eNodeSocketValueType.VALUE_VARIABLE]
      [exSocket "value" BVMType.BVM_FLOAT] false),
    ("PASS_FLOAT", NodeType.mk "PASS_FLOAT" [exSocket "value" BVMType.BVM_FLOAT]
      [exSocket "value" BVMType.BVM_FLOAT] true),
    ("INT_TO_FLOAT", NodeType.mk "INT_TO_FLOAT" [exSocket "value" BVMType.BVM_INT]
      [exSocket "value" BVMType.BVM_FLOAT] false)]
  converters := fun a b =>
    if a = BVMType.BVM_INT ∧ b = BVMType.BVM_FLOAT
    then some (Converter.mk "INT_TO_FLOAT" "value" "value") else none

/-- The graph with no instance and no port. -/
def emptyGraph : NodeGraph := NodeGraph.mk [] [] [] []

/-- The graph after `add_node("VALUE_INT", "a")` and `add_node("SIN", "b")`:
instance `a` at address 1, instance `b` at address 2. -/
def exGraph : NodeGraph :=
  ((emptyGraph.add_node exReg "VALUE_INT" "a").1.add_node exReg "SIN" "b").1

/-- The graph `exGraph` after `add_node("SIN", "c")`: instance `c` at address 3. -/
def exGraph3 : NodeGraph := (exGraph.add_node exReg "SIN" "c").1

/-- The graph `exGraph` after `add_node("INT_TO_FLOAT", "d")`: instance `d` at
address 3, with an integer input. -/
def exGraph4 : NodeGraph := (exGraph.add_node exReg "INT_TO_FLOAT" "d").1

/-- Unwrap the graph of an `add_link` result; the call is kept only if it
returned true. -/
def linked (r : Option (Bool × NodeGraph)) (otherwise : NodeGraph) : NodeGraph :=
  match r with
  | some (true, g) => g
  | _ => otherwise

/-- Four instances: `B` at address 1, the pass node `P` at 2, `A` at 3 and `C`
at 4, all with float sockets. -/
def exNodes : NodeGraph :=
  ((((emptyGraph.add_node exReg "SIN" "B").1.add_node exReg "PASS_FLOAT" "P").1.add_node
    exReg "SIN" "A").1.add_node exReg "SIN" "C").1

/-- The graph `exNodes` with the links `B → P` and `P → A`, an output `out`
linked to `A` and an output `raw` linked to the pass node `P`; `C` is linked
to nothing. -/
def exPassGraph : NodeGraph :=
  let g1 := linked (exNodes.add_link exReg 1 "value" 2 (SocketKey.name "value") true) exNodes
  let g2 := linked (g1.add_link exReg 2 "value" 3 (SocketKey.name "value") true) g1
  { g2 with outputs := [
      NodeGraphOutput.mk "out" BVMType.BVM_FLOAT none 3 (some (exSocket "value" BVMType.BVM_FLOAT)),
      NodeGraphOutput.mk "raw" BVMType.BVM_FLOAT none 2 (some (exSocket "value" BVMType.BVM_FLOAT))] }

/-- The instance `b` of `exGraph`, of type `SIN`. -/
def exSinInstance : NodeInstance :=
  NodeInstance.create
    (NodeType.mk "SIN"
      [NodeSocket.mk "value" (TypeDesc.mk BVMType.BVM_FLOAT)
        (some (Value.mk (TypeDesc.mk BVMType.BVM_FLOAT) 0)) eNodeSocketValueType.VALUE_VARIABLE]
      [exSocket "value" BVMType.BVM_FLOAT] false) "b"

/-- An overload of `Value::create` for a literal that is a natural number. -/
def exCreate (td : TypeDesc) (n : Nat) : Option Value := some (Value.mk td n)

end bvm

/-! ## Particle events (`events.cpp`) -/

namespace BParticles

/-- The operations on `float` that `AgeReachedEvent::filter` uses. The
arithmetic is left abstract: the embedding fixes the control flow and which
operation is applied to which operands, for any semantics of the operators. -/
structure FloatOps (F : Type) where
  zero : F
  one : F
  add : F → F → F
  sub : F → F → F
  lt : F → F → Bool
  gt : F → F → Bool
  ge : F → F → Bool

/-- The class `TimeSpan`, declared outside `events.cpp`: a start and a duration. -/
structure TimeSpan (F : Type) where
  start : F
  duration : F

/-- The macro `CLAMP(a, b, c)` of `BLI_utildefines.h`, which is not among the
sources: `a` raised to `b` when below it, else lowered to `c` when above it. -/
def CLAMP {F : Type} (ops : FloatOps F) (a b c : F) : F :=
  if ops.lt a b then b else if ops.gt a c then c else a

/-- What `AgeReachedEvent::filter` reads and writes through its
`EventFilterInterface`: the particle set (`indices` lists the particle index of
each particle of the set), the attribute arrays `Birth Time` and the byte
attribute named by the event identifier, both read at a particle index, the
time at which the step ends, the time span of each particle of the set, and
the calls of `trigger_particle` made so far, in order. -/
structure EventFilterInterface (F : Type) where
  indices : List Nat
  birth_times : Nat → F
  was_activated_before : Nat → Nat
  end_time : F
  time_span : Nat → TimeSpan F
  triggered : List (Nat × F)

/-- The method `EventFilterInterface::trigger_particle(index, time_factor)`. -/
def EventFilterInterface.trigger_particle {F : Type} (interface : EventFilterInterface F)
    (index : Nat) (time_factor : F) : EventFilterInterface F :=
  { interface with triggered := interface.triggered ++ [(index, time_factor)] }

/-- The body of the loop of `AgeReachedEvent::filter` for the particle `i` of
the set. -/
def filter_step {F : Type} (ops : FloatOps F) (get_factor_safe : TimeSpan F → F → F)
    (trigger_age : F) (interface : EventFilterInterface F) (i : Nat) :
    EventFilterInterface F :=
  let pindex := interface.indices.getD i 0
  if interface.was_activated_before pindex ≠ 0 then interface
  else
    let birth_time := interface.birth_times pindex
    let age_at_end := ops.sub interface.end_time birth_time
    if ops.ge age_at_end trigger_age then
      let time_span := interface.time_span i
      let age_at_start := ops.sub age_at_end time_span.duration
      if ops.lt trigger_age age_at_start then interface.trigger_particle i ops.zero
      else
        let time_factor := get_factor_safe time_span (ops.add birth_time trigger_age)
        interface.trigger_particle i (CLAMP ops time_factor ops.zero ops.one)
    else interface

/-- The method `AgeReachedEvent::filter`. `trigger_age` is the float the call of
`m_compute_age_body` returns, `get_factor_safe` the method
`TimeSpan::get_factor_safe`. -/
def AgeReachedEvent.filter {F : Type} (ops : FloatOps F)
    (get_factor_safe : TimeSpan F → F → F) (trigger_age : F)
    (interface : EventFilterInterface F) : EventFilterInterface F :=
  (List.range interface.indices.length).foldl
    (filter_step ops get_factor_safe trigger_age) interface

/-- Whether the loop body triggers the particle `i` of the set: its activation
flag is unset and its age at the end time has reached the trigger age. -/
def age_reached {F : Type} (ops : FloatOps F) (trigger_age : F)
    (interface : EventFilterInterface F) (i : Nat) : Bool :=
  decide (interface.was_activated_before (interface.indices.getD i 0) = 0) &&
    ops.ge (ops.sub interface.end_time (interface.birth_times (interface.indices.getD i 0)))
      trigger_age

/-- The time factor the loop body passes to `trigger_particle` for the
particle `i` of the set. -/
def trigger_factor {F : Type} (ops : FloatOps F) (get_factor_safe : TimeSpan F → F → F)
    (trigger_age : F) (interface : EventFilterInterface F) (i : Nat) : F :=
  if ops.lt trigger_age
      (ops.sub (ops.sub interface.end_time (interface.birth_times (interface.indices.getD i 0)))
        (interface.time_span i).duration)
  then ops.zero
  else CLAMP ops (get_factor_safe (interface.time_span i)
    (ops.add (interface.birth_times (interface.indices.getD i 0)) trigger_age)) ops.zero ops.one

/-- What `AgeReachedEvent::execute` and the action it runs reach through the
`EventExecuteInterface`: the particle set (`indices` lists the particle index
of each particle of the set), the byte attribute named by the event
identifier, read and written at a particle index, and all the other state of
the simulation (`other`), of which `execute` itself touches nothing. -/
structure EventExecuteInterface (A : Type) where
  indices : List Nat
  was_activated_before : Nat → Nat
  other : A

/-- The body of the loop of `AgeReachedEvent::execute`:
`was_activated_before[pindex] = true`. -/
def set_activated {A : Type} (interface : EventExecuteInterface A) (pindex : Nat) :
    EventExecuteInterface A :=
  { interface with
    was_activated_before := fun p => if p = pindex then 1 else interface.was_activated_before p }

/-- The loop of `AgeReachedEvent::execute` over `particles.indices()`. -/
def mark_activated {A : Type} (interface : EventExecuteInterface A) : EventExecuteInterface A :=
  interface.indices.foldl set_activated interface

/-- The method `AgeReachedEvent::execute`. `action` is what the call
`m_action->execute(action_interface)` does to the state; the action is an
object handed to the event when it is built, and the `ActionInterface` it
receives wraps the interface of `execute`. -/
def AgeReachedEvent.execute {A : Type}
    (action : EventExecuteInterface A → EventExecuteInterface A)
    (interface : EventExecuteInterface A) : EventExecuteInterface A :=
  action (mark_activated interface)

/-- Integer arithmetic as an instance of the float operations. -/
def exOps : FloatOps Int where
  zero := 0
  one := 1
  add := fun a b => a + b
  sub := fun a b => a - b
  lt := fun a b => decide (a < b)
  gt := fun a b => decide (a > b)
  ge := fun a b => decide (a ≥ b)

/-- A span factor for `exOps`: the offset from the start of the span. -/
def exFactor (ts : TimeSpan Int) (t : Int) : Int := t - ts.start

/-- Three particles of a block, with particle indices 4, 0 and 2, born at
times 1, 5 and 9; the particle with index 0 was activated before. The step
ends at time 10 and lasts 2 for each particle. -/
def exInterface : EventFilterInterface Int where
  indices := [4, 0, 2]
  birth_times := fun p => if p = 4 then 1 else if p = 0 then 5 else 9
  was_activated_before := fun p => if p = 0 then 1 else 0
  end_time := 10
  time_span := fun _ => TimeSpan.mk 8 2
  triggered := []

/-- The particle set of `exInterface` with its activation flags, as `execute`
receives it; the other state is a counter of the actions run. -/
def exExecuteInterface : EventExecuteInterface Nat where
  indices := [4, 0, 2]
  was_activated_before := fun p => if p = 0 then 1 else 0
  other := 0

/-- An action that changes the other state and no activation flag. -/
def exAction (interface : EventExecuteInterface Nat) : EventExecuteInterface Nat :=
  { interface with other := interface.other + 1 }

/-- An action that zeroes the activation flag of every particle. -/
def exClearAction (interface : EventExecuteInterface Nat) : EventExecuteInterface Nat :=
  { interface with was_activated_before := fun _ => 0 }

/-- The interface `exInterface` of a filter call that follows `execute` with
the action `exClearAction` on the same particle set. -/
def exInterfaceCleared : EventFilterInterface Int :=
  { exInterface with
    was_activated_before :=
      (AgeReachedEvent.execute exClearAction exExecuteInterface).was_activated_before }

/-- The interface `exInterface` of a filter call that follows
`execute` on the same particle set. -/
def exInterfaceAfter : EventFilterInterface Int :=
  { exInterface with
    was_activated_before :=
      (AgeReachedEvent.execute exAction exExecuteInterface).was_activated_before }

end BParticles

/-! ## Theorems -/

namespace bvm

/-- The order of `SocketPair` unfolded to propositions. -/
theorem SocketPair.lt_iff_lex (a b : SocketPair) :
    a.lt b = true ↔ a.node < b.node ∨ (a.node = b.node ∧ a.socket < b.socket) := by
  unfold SocketPair.lt
  rcases Nat.lt_trichotomy a.node b.node with h | h | h
  · simp [h]
  · simp [h]
  · have h1 : ¬ a.node < b.node := Nat.lt_asymm h
    have h2 : a.node ≠ b.node := Nat.ne_of_gt h
    simp [h, h1, h2]

/-- The order of `ConstSocketPair` unfolded to propositions. -/
theorem ConstSocketPair.const_lt_iff_lex (a b : ConstSocketPair) :
    a.lt b = true ↔ a.node < b.node ∨ (a.node = b.node ∧ a.socket < b.socket) := by
  unfold ConstSocketPair.lt
  rcases Nat.lt_trichotomy a.node b.node with h | h | h
  · simp [h]
  · simp [h]
  · have h1 : ¬ a.node < b.node := Nat.lt_asymm h
    have h2 : a.node ≠ b.node := Nat.ne_of_gt h
    simp [h, h1, h2]

/-- Lexicographic comparison of (address, name) pairs is a strict total order. -/
theorem lex_strict_total (n1 n2 n3 : Nat) (s1 s2 s3 : String) :
    ¬ (n1 < n1 ∨ (n1 = n1 ∧ s1 < s1)) ∧
    ((n1 < n2 ∨ (n1 = n2 ∧ s1 < s2)) → (n2 < n3 ∨ (n2 = n3 ∧ s2 < s3)) →
      (n1 < n3 ∨ (n1 = n3 ∧ s1 < s3))) ∧
    (((n1 < n2 ∨ (n1 = n2 ∧ s1 < s2)) ∧ ¬ (n2 < n1 ∨ (n2 = n1 ∧ s2 < s1)) ∧
        ¬ (n1 = n2 ∧ s1 = s2)) ∨
      (¬ (n1 < n2 ∨ (n1 = n2 ∧ s1 < s2)) ∧ (n2 < n1 ∨ (n2 = n1 ∧ s2 < s1)) ∧
        ¬ (n1 = n2 ∧ s1 = s2)) ∨
      (¬ (n1 < n2 ∨ (n1 = n2 ∧ s1 < s2)) ∧ ¬ (n2 < n1 ∨ (n2 = n1 ∧ s2 < s1)) ∧
        (n1 = n2 ∧ s1 = s2))) := by
  refine ⟨?_, ?_, ?_⟩
  · rintro (h | ⟨_, h⟩)
    · exact lt_irrefl _ h
    · exact lt_irrefl _ h
  · rintro (h | ⟨h, hs⟩) (h' | ⟨h', hs'⟩)
    · exact Or.inl (lt_trans h h')
    · exact Or.inl (h' ▸ h)
    · exact Or.inl (h ▸ h')
    · exact Or.inr ⟨h.trans h', lt_trans hs hs'⟩
  · rcases lt_trichotomy n1 n2 with h | h | h
    · refine Or.inl ⟨Or.inl h, ?_, ?_⟩
      · rintro (h' | ⟨h', _⟩)
        · exact lt_asymm h h'
        · exact absurd h'.symm (ne_of_lt h)
      · rintro ⟨h', _⟩
        exact absurd h' (ne_of_lt h)
    · subst h
      rcases lt_trichotomy s1 s2 with hs | hs | hs
      · refine Or.inl ⟨Or.inr ⟨rfl, hs⟩, ?_, ?_⟩
        · rintro (h' | ⟨_, h'⟩)
          · exact lt_irrefl _ h'
          · exact lt_asymm hs h'
        · rintro ⟨_, h'⟩
          exact absurd h' (ne_of_lt hs)
      · subst hs
        refine Or.inr (Or.inr ⟨?_, ?_, rfl, rfl⟩)
        · rintro (h' | ⟨_, h'⟩)
          · exact lt_irrefl _ h'
          · exact lt_irrefl _ h'
        · rintro (h' | ⟨_, h'⟩)
          · exact lt_irrefl _ h'
          · exact lt_irrefl _ h'
      · refine Or.inr (Or.inl ⟨?_, Or.inr ⟨rfl, hs⟩, ?_⟩)
        · rintro (h' | ⟨_, h'⟩)
          · exact lt_irrefl _ h'
          · exact lt_asymm hs h'
        · rintro ⟨_, h'⟩
          exact absurd h'.symm (ne_of_lt hs)
    · refine Or.inr (Or.inl ⟨?_, Or.inl h, ?_⟩)
      · rintro (h' | ⟨h', _⟩)
        · exact lt_asymm h h'
        · exact absurd h' (ne_of_gt h)
      · rintro ⟨h', _⟩
        exact absurd h' (ne_of_gt h)

/-- C9: `operator <` on `SocketPair` and on `ConstSocketPair` is the
lexicographic strict total order on (node pointer, socket name): it is
irreflexive, transitive, and exactly one of `a < b`, `b < a`, or equality of
both fields holds; the conversion of a `SocketPair` to a `ConstSocketPair`
preserves the order and the boolean validity test. -/
theorem socket_pair_lt_strict_total_order :
    (∀ a b c : SocketPair,
      (a.lt b = true ↔ a.node < b.node ∨ (a.node = b.node ∧ a.socket < b.socket)) ∧
      a.lt a = false ∧
      (a.lt b = true → b.lt c = true → a.lt c = true) ∧
      ((a.lt b = true ∧ b.lt a = false ∧ ¬ (a.node = b.node ∧ a.socket = b.socket)) ∨
        (a.lt b = false ∧ b.lt a = true ∧ ¬ (a.node = b.node ∧ a.socket = b.socket)) ∨
        (a.lt b = false ∧ b.lt a = false ∧ (a.node = b.node ∧ a.socket = b.socket))) ∧
      a.toConstSocketPair.lt b.toConstSocketPair = a.lt b ∧
      a.toConstSocketPair.toBool = a.toBool ∧
      (a.toBool = true ↔ a.node ≠ NULL ∧ a.socket ≠ "")) ∧
    (∀ a b c : ConstSocketPair,
      (a.lt b = true ↔ a.node < b.node ∨ (a.node = b.node ∧ a.socket < b.socket)) ∧
      a.lt a = false ∧
      (a.lt b = true → b.lt c = true → a.lt c = true) ∧
      ((a.lt b = true ∧ b.lt a = false ∧ ¬ (a.node = b.node ∧ a.socket = b.socket)) ∨
        (a.lt b = false ∧ b.lt a = true ∧ ¬ (a.node = b.node ∧ a.socket = b.socket)) ∨
        (a.lt b = false ∧ b.lt a = false ∧ (a.node = b.node ∧ a.socket = b.socket))) ∧
      (a.toBool = true ↔ a.node ≠ NULL ∧ a.socket ≠ "")) := by
  constructor
  · intro a b c
    have key := lex_strict_total a.node b.node c.node a.socket b.socket c.socket
    have hab := SocketPair.lt_iff_lex a b
    have hba := SocketPair.lt_iff_lex b a
    have hbc := SocketPair.lt_iff_lex b c
    have hac := SocketPair.lt_iff_lex a c
    have haa := SocketPair.lt_iff_lex a a
    simp only [← Bool.not_eq_true]
    rw [hab, hba, haa]
    refine ⟨Iff.rfl, key.1, ?_, key.2.2, rfl, rfl, ?_⟩
    · rw [hbc, hac]
      exact key.2.1
    · simp [SocketPair.toBool]
  · intro a b c
    have key := lex_strict_total a.node b.node c.node a.socket b.socket c.socket
    have hab := ConstSocketPair.const_lt_iff_lex a b
    have hba := ConstSocketPair.const_lt_iff_lex b a
    have hbc := ConstSocketPair.const_lt_iff_lex b c
    have hac := ConstSocketPair.const_lt_iff_lex a c
    have haa := ConstSocketPair.const_lt_iff_lex a a
    simp only [← Bool.not_eq_true]
    rw [hab, hba, haa]
    refine ⟨Iff.rfl, key.1, ?_, key.2.2, ?_⟩
    · rw [hbc, hac]
      exact key.2.1
    · simp [ConstSocketPair.toBool]

/-! ### Maps, sockets and the heap -/

theorem mapFind_mapSet_same {β : Type} (m : List (String × β)) (k : String) (v : β) :
    mapFind (mapSet m k v) k = some v := by
  induction m with
  | nil => simp [mapSet, mapFind]
  | cons hd tl ih =>
    obtain ⟨k', v'⟩ := hd
    by_cases h : k' = k
    · simp [mapSet, mapFind, h]
    · simp [mapSet, mapFind, h, ih]

theorem mapFind_mapSet_ne {β : Type} (m : List (String × β)) (k k2 : String) (v : β)
    (h : k ≠ k2) : mapFind (mapSet m k v) k2 = mapFind m k2 := by
  induction m with
  | nil => simp [mapSet, mapFind, h]
  | cons hd tl ih =>
    obtain ⟨k', v'⟩ := hd
    by_cases h1 : k' = k
    · subst h1
      simp [mapSet, mapFind, h]
    · by_cases h2 : k' = k2
      · subst h2
        simp [mapSet, mapFind, h1]
      · simp [mapSet, mapFind, h1, h2, ih]

theorem find_socket_by_name_name {l : List NodeSocket} {n : String} {s : NodeSocket}
    (h : find_socket_by_name l n = some s) : s ∈ l ∧ s.name = n := by
  unfold find_socket_by_name at h
  have h1 := List.find?_some h
  have h2 := List.mem_of_find?_eq_some h
  simp at h1
  exact ⟨h2, h1⟩

theorem find_socket_by_name_of_mem {l : List NodeSocket} {s : NodeSocket} (h : s ∈ l) :
    ∃ s', find_socket_by_name l s.name = some s' := by
  unfold find_socket_by_name
  cases hf : l.find? (fun t => t.name == s.name) with
  | some s' => exact ⟨s', rfl⟩
  | none =>
    rw [List.find?_eq_none] at hf
    have := hf s h
    simp at this

theorem find_socket_by_name_eq_none {l : List NodeSocket} {n : String} :
    find_socket_by_name l n = none ↔ ∀ s ∈ l, s.name ≠ n := by
  unfold find_socket_by_name
  rw [List.find?_eq_none]
  simp

theorem find_socket_by_index_mem {l : List NodeSocket} {i : Int} {s : NodeSocket}
    (h : find_socket_by_index l i = some s) : s ∈ l := by
  unfold find_socket_by_index at h
  split at h
  · exact List.getElem?_mem h
  · cases h

/-- A socket that `find_input` resolves from a name or an index is an input
socket of the node type; a socket passed directly is returned unchecked. -/
theorem NodeType.find_input_mem {t : NodeType} {key : SocketKey} {s : NodeSocket}
    (h : t.find_input key = some s) (hkey : ∀ socket, key ≠ SocketKey.resolved socket) :
    s ∈ t.inputs := by
  cases key with
  | name n => exact (find_socket_by_name_name h).1
  | index i => exact find_socket_by_index_mem h
  | resolved socket => exact absurd rfl (hkey socket)

theorem NodeType.find_input_resolves {t : NodeType} {s : NodeSocket}
    (h : s ∈ t.inputs) : ∃ s', t.find_input_name s.name = some s' :=
  find_socket_by_name_of_mem h

/-- The socket `find_input` returns is an input socket of the node type as
soon as a socket that is passed directly is one. -/
theorem NodeType.find_input_socket_mem {t : NodeType} {key : SocketKey} {s : NodeSocket}
    (h : t.find_input key = some s)
    (hres : ∀ socket, key = SocketKey.resolved socket → s ∈ t.inputs) : s ∈ t.inputs := by
  cases key with
  | name n => exact (find_socket_by_name_name h).1
  | index i => exact find_socket_by_index_mem h
  | resolved socket => exact hres socket rfl

theorem NodeGraph.deref_ne_null {g : NodeGraph} {p : NodePtr} {x : NodeInstance}
    (h : g.deref p = some x) : p ≠ NULL := by
  intro hp
  rw [hp] at h
  simp [NodeGraph.deref, NULL] at h

theorem NodeGraph.store_nodes (g : NodeGraph) (p : NodePtr) (x : NodeInstance) :
    (g.store p x).nodes = g.nodes := by
  cases p <;> rfl

theorem NodeGraph.store_heap_length (g : NodeGraph) (p : NodePtr) (x : NodeInstance) :
    (g.store p x).heap.length = g.heap.length := by
  cases p <;> simp [NodeGraph.store]

theorem NodeGraph.deref_store_same {g : NodeGraph} {p : NodePtr} {x : NodeInstance}
    (y : NodeInstance) (h : g.deref p = some x) : (g.store p y).deref p = some y := by
  cases p with
  | zero => simp [NodeGraph.deref] at h
  | succ q =>
    simp only [NodeGraph.deref, NodeGraph.store] at h ⊢
    have hq : q < g.heap.length := by
      by_contra hc
      rw [List.getElem?_eq_none (by omega)] at h
      simp at h
    simp [List.getElem?_set_self, hq]

theorem NodeGraph.deref_store_ne (g : NodeGraph) {p q : NodePtr} (y : NodeInstance)
    (h : p ≠ q) : (g.store p y).deref q = g.deref q := by
  cases p with
  | zero => rfl
  | succ p' =>
    cases q with
    | zero => rfl
    | succ q' =>
      simp only [NodeGraph.deref, NodeGraph.store]
      rw [List.getElem?_set_ne]
      intro hc
      exact h (by rw [hc])

theorem NodeGraph.deref_lt_length {g : NodeGraph} {p : Nat} {x : NodeInstance}
    (h : g.deref p = some x) : 0 < p ∧ p ≤ g.heap.length := by
  cases p with
  | zero => simp [NodeGraph.deref] at h
  | succ q =>
    simp only [NodeGraph.deref] at h
    have hq : q < g.heap.length := by
      by_contra hc
      rw [List.getElem?_eq_none (by omega)] at h
      simp at h
    omega

/-- The instance a converter insertion allocates. -/
theorem NodeGraph.add_converter_some {reg : Registry} {g g1 : NodeGraph} {from_ cv : SocketPair}
    {c : Converter} {fi : NodeInstance} (hf : g.deref from_.node = some fi)
    (h : g.add_converter reg from_ (some c) = some (g1, cv)) :
    ∃ nt, reg.find_node_type c.node_type = some nt ∧
      cv = SocketPair.mk (g.heap.length + 1) c.output ∧
      g1.nodes = g.nodes ++ [(g.unique_name c.node_type "", g.heap.length + 1)] ∧
      g1.heap = g.heap ++ [some ((NodeInstance.create nt (g.unique_name c.node_type "")).set_input_link
        c.input from_.node (fi.type.find_output_name from_.socket)).2] ∧
      g1.inputs = g.inputs ∧ g1.outputs = g.outputs := by
  unfold NodeGraph.add_converter at h
  simp only [NodeGraph.add_node] at h
  cases hnt : reg.find_node_type c.node_type with
  | none =>
    rw [hnt] at h
    simp [NodeGraph.deref, NULL] at h
  | some nt =>
    rw [hnt] at h
    refine ⟨nt, rfl, ?_⟩
    have hlen := NodeGraph.deref_lt_length hf
    have hd1 : NodeGraph.deref
        { heap := g.heap ++ [some (NodeInstance.create nt (g.unique_name c.node_type ""))],
          nodes := g.nodes ++ [(g.unique_name c.node_type "", g.heap.length + 1)],
          inputs := g.inputs, outputs := g.outputs } (g.heap.length + 1)
        = some (NodeInstance.create nt (g.unique_name c.node_type "")) := by
      simp [NodeGraph.deref]
    have hd2 : NodeGraph.deref
        { heap := g.heap ++ [some (NodeInstance.create nt (g.unique_name c.node_type ""))],
          nodes := g.nodes ++ [(g.unique_name c.node_type "", g.heap.length + 1)],
          inputs := g.inputs, outputs := g.outputs } from_.node = some fi := by
      rcases hp : from_.node with _ | q
      · rw [hp] at hf
        simp [NodeGraph.deref] at hf
      · rw [hp] at hf hlen
        simp only [NodeGraph.deref] at hf ⊢
        rw [List.getElem?_append_left (Nat.lt_of_succ_le hlen.2)]
        exact hf
    simp only [NodeGraph.alloc] at h
    rw [hd1, hd2] at h
    simp only [Option.some.injEq, Prod.mk.injEq] at h
    obtain ⟨h1, h2⟩ := h
    subst h1
    subst h2
    simp [NodeGraph.store]

/-- The dispatch of `add_type_converter` reads one table entry. -/
theorem NodeGraph.add_type_converter_eq {reg : Registry} {g : NodeGraph} {from_ : SocketPair}
    {td : TypeDesc} {fi : NodeInstance} {fs : NodeSocket}
    (hf : g.deref from_.node = some fi)
    (hfs : fi.type.find_output_name from_.socket = some fs) :
    g.add_type_converter reg from_ td =
      if fs.typedesc = td then some (g, from_)
      else g.add_converter reg from_ (reg.converters fs.typedesc.base_type td.base_type) := by
  unfold NodeGraph.add_type_converter
  simp only [hf, hfs]
  split
  · rfl
  · cases fs.typedesc.base_type <;> rfl

/-- Without autoconversion the link is made whatever the socket types are. -/
theorem NodeGraph.add_link_direct {reg : Registry} {g : NodeGraph} {from_node to_node : NodePtr}
    {from_ : String} {to_ : SocketKey} {fi ti : NodeInstance} {fs ts : NodeSocket}
    (hf : g.deref from_node = some fi) (ht : g.deref to_node = some ti)
    (hfs : fi.type.find_output_name from_ = some fs)
    (hts : ti.type.find_input to_ = some ts) (hsock : ts ∈ ti.type.inputs) :
    g.add_link reg from_node from_ to_node to_ false =
      some (true, g.store to_node
        { ti with inputs := (mapSet ti.inputs ts.name
                              (InputInstance.mk none from_node (some fs) none)) }) := by
  unfold NodeGraph.add_link
  have h1 := NodeGraph.deref_ne_null hf
  have h2 := NodeGraph.deref_ne_null ht
  obtain ⟨s', hs'⟩ := NodeType.find_input_resolves hsock
  simp [h1, h2, hf, ht, hfs, hts, NodeInstance.set_input_link, hs']

theorem NodeGraph.input_binding_store {g : NodeGraph} {p : NodePtr} {ti : NodeInstance}
    (ht : g.deref p = some ti) (name : String) (b : InputInstance) :
    (g.store p { ti with inputs := mapSet ti.inputs name b }).input_binding p name = some b := by
  unfold NodeGraph.input_binding
  rw [NodeGraph.deref_store_same _ ht]
  exact mapFind_mapSet_same _ _ _

theorem NodeInstance.set_input_link_bound {self : NodeInstance} {name : String} {s' : NodeSocket}
    (h : self.type.find_input_name name = some s') (p : NodePtr) (s : Option NodeSocket) :
    self.set_input_link name p s =
      (true, { self with inputs := (mapSet self.inputs name (InputInstance.mk none p s none)) }) := by
  unfold NodeInstance.set_input_link
  rw [h]

/-- The body of `add_link` once both sockets are resolved. -/
theorem NodeGraph.add_link_resolved {reg : Registry} {g : NodeGraph} {from_node to_node : NodePtr}
    {from_ : String} {to_ : SocketKey} {fi ti : NodeInstance} {fs ts : NodeSocket}
    (autoconvert : Bool)
    (hf : g.deref from_node = some fi) (ht : g.deref to_node = some ti)
    (hfs : fi.type.find_output_name from_ = some fs)
    (hts : ti.type.find_input to_ = some ts) :
    g.add_link reg from_node from_ to_node to_ autoconvert =
      match (if autoconvert
          then g.add_type_converter reg (SocketPair.mk from_node from_) ts.typedesc
          else some (g, SocketPair.mk from_node from_)) with
      | none => none
      | some (g1, converted) =>
        if converted.node = NULL then some (false, g1)
        else
          match g1.deref converted.node, g1.deref to_node with
          | some conv_inst, some to_inst1 =>
            some (true, g1.store to_node
              (to_inst1.set_input_link ts.name converted.node
                (conv_inst.type.find_output_name converted.socket)).2)
          | _, _ => none := by
  unfold NodeGraph.add_link
  have h1 := NodeGraph.deref_ne_null hf
  have h2 := NodeGraph.deref_ne_null ht
  simp only [h1, h2, or_self, if_false, hf, ht, hfs, hts]

/-- A link between sockets of one type is made directly, with or without
autoconversion. -/
theorem NodeGraph.add_link_same_type {reg : Registry} {g : NodeGraph} {from_node to_node : NodePtr}
    {from_ : String} {to_ : SocketKey} {fi ti : NodeInstance} {fs ts : NodeSocket}
    (autoconvert : Bool)
    (hf : g.deref from_node = some fi) (ht : g.deref to_node = some ti)
    (hfs : fi.type.find_output_name from_ = some fs)
    (hts : ti.type.find_input to_ = some ts) (hsock : ts ∈ ti.type.inputs)
    (hty : autoconvert = false ∨ fs.typedesc = ts.typedesc) :
    g.add_link reg from_node from_ to_node to_ autoconvert =
      some (true, g.store to_node
        { ti with inputs := (mapSet ti.inputs ts.name
                              (InputInstance.mk none from_node (some fs) none)) }) := by
  cases autoconvert with
  | false => exact NodeGraph.add_link_direct hf ht hfs hts hsock
  | true =>
    have hty' : fs.typedesc = ts.typedesc := by
      rcases hty with h | h
      · cases h
      · exact h
    rw [NodeGraph.add_link_resolved true hf ht hfs hts]
    have hc := @NodeGraph.add_type_converter_eq reg g (SocketPair.mk from_node from_)
      ts.typedesc fi fs hf hfs
    obtain ⟨s', hs'⟩ := NodeType.find_input_resolves hsock
    have h1 := NodeGraph.deref_ne_null hf
    simp [hc, hty', h1, hf, ht, hfs, NodeInstance.set_input_link_bound hs']

/-- A null pair from `add_type_converter` comes with the unchanged graph. -/
theorem NodeGraph.add_type_converter_null {reg : Registry} {g g1 : NodeGraph}
    {from_ cv : SocketPair} {td : TypeDesc}
    (h : g.add_type_converter reg from_ td = some (g1, cv)) (hnull : cv.node = NULL) :
    g1 = g ∧ ∃ fi fs, g.deref from_.node = some fi ∧
      fi.type.find_output_name from_.socket = some fs ∧ fs.typedesc ≠ td ∧
      reg.converters fs.typedesc.base_type td.base_type = none := by
  cases hf : g.deref from_.node with
  | none => simp [NodeGraph.add_type_converter, hf] at h
  | some fi =>
    cases hfs : fi.type.find_output_name from_.socket with
    | none => simp [NodeGraph.add_type_converter, hf, hfs] at h
    | some fs =>
      rw [NodeGraph.add_type_converter_eq hf hfs] at h
      by_cases hty : fs.typedesc = td
      · rw [if_pos hty] at h
        simp only [Option.some.injEq, Prod.mk.injEq] at h
        rw [← h.2] at hnull
        exact absurd hnull (NodeGraph.deref_ne_null hf)
      · rw [if_neg hty] at h
        cases hc : reg.converters fs.typedesc.base_type td.base_type with
        | none =>
          rw [hc] at h
          simp only [NodeGraph.add_converter, Option.some.injEq, Prod.mk.injEq] at h
          exact ⟨h.1.symm, fi, fs, rfl, hfs, hty, hc⟩
        | some c =>
          rw [hc] at h
          obtain ⟨nt, _, hcv, _⟩ := NodeGraph.add_converter_some hf h
          rw [hcv] at hnull
          exact absurd hnull (Nat.succ_ne_zero _)

/-- Failure of `add_link` when `add_type_converter` returns the null pair. -/
theorem NodeGraph.add_link_null_converter {reg : Registry} {g g1 : NodeGraph}
    {from_node to_node : NodePtr}
    {from_ : String} {to_ : SocketKey} {fi ti : NodeInstance} {fs ts : NodeSocket}
    {cv : SocketPair}
    (hf : g.deref from_node = some fi) (ht : g.deref to_node = some ti)
    (hfs : fi.type.find_output_name from_ = some fs)
    (hts : ti.type.find_input to_ = some ts)
    (hconv : g.add_type_converter reg (SocketPair.mk from_node from_) ts.typedesc = some (g1, cv))
    (hnull : cv.node = NULL) :
    g.add_link reg from_node from_ to_node to_ true = some (false, g) := by
  rw [NodeGraph.add_link_resolved true hf ht hfs hts]
  have hg := (NodeGraph.add_type_converter_null hconv hnull).1
  simp [hconv, hnull, hg]

/-- C1, as stated, fails: in the graph `exGraph` the integer output `value` of
the instance at address 1 and the float input `value` of the instance at
address 2 have different TypeDescs, and `add_link` with `autoconvert = false`
returns true and replaces the previous binding of that input. -/
theorem add_link_mismatch_without_autoconvert_succeeds :
    ∃ fi ti fs ts g',
      exGraph.deref 1 = some fi ∧ exGraph.deref 2 = some ti ∧
      fi.type.find_output_name "value" = some fs ∧
      ti.type.find_input (SocketKey.name "value") = some ts ∧
      fs.typedesc ≠ ts.typedesc ∧
      exGraph.add_link exReg 1 "value" 2 (SocketKey.name "value") false = some (true, g') ∧
      g'.input_binding 2 ts.name ≠ exGraph.input_binding 2 ts.name :=
  ⟨_, _, _, _, _, rfl, rfl, rfl, rfl, by decide, rfl, by decide⟩

/-- C1, amended: with `autoconvert = false`, once both sockets resolve,
`add_link` compares no TypeDesc: it returns true, adds no instance and binds
the destination input to a link from the source node's output socket,
whether the two TypeDescs are equal or not. The input socket is one of the
destination's type: that is so for a socket found by name or by index, and
`hres` says it of a socket that is passed directly. -/
theorem add_link_without_autoconvert (reg : Registry) (g : NodeGraph)
    (from_node to_node : NodePtr) (from_ : String) (to_ : SocketKey)
    (fi ti : NodeInstance) (fs ts : NodeSocket)
    (hf : g.deref from_node = some fi) (ht : g.deref to_node = some ti)
    (hfs : fi.type.find_output_name from_ = some fs)
    (hts : ti.type.find_input to_ = some ts)
    (hres : ∀ socket, to_ = SocketKey.resolved socket → ts ∈ ti.type.inputs) :
    ∃ g', g.add_link reg from_node from_ to_node to_ false = some (true, g') ∧
      g'.nodes = g.nodes ∧
      g'.input_binding to_node ts.name =
        some (InputInstance.mk none from_node (some fs) none) := by
  have hsock := NodeType.find_input_socket_mem hts hres
  refine ⟨_, NodeGraph.add_link_direct hf ht hfs hts hsock, ?_, ?_⟩
  · exact NodeGraph.store_nodes _ _ _
  · exact NodeGraph.input_binding_store ht _ _

/-- Witness of C1 as amended: the mismatched link of `exGraph`. -/
theorem add_link_without_autoconvert_witness :
    ∃ g', exGraph.add_link exReg 1 "value" 2 (SocketKey.name "value") false = some (true, g') ∧
      g'.nodes = exGraph.nodes ∧
      g'.input_binding 2 "value" =
        some (InputInstance.mk none 1 (some (exSocket "value" BVMType.BVM_INT)) none) :=
  add_link_without_autoconvert exReg exGraph 1 2 "value" (SocketKey.name "value")
    (NodeInstance.create (NodeType.mk "VALUE_INT" [] [exSocket "value" BVMType.BVM_INT] false) "a")
    _ (exSocket "value" BVMType.BVM_INT)
    (NodeSocket.mk "value" (TypeDesc.mk BVMType.BVM_FLOAT)
      (some (Value.mk (TypeDesc.mk BVMType.BVM_FLOAT) 0)) eNodeSocketValueType.VALUE_VARIABLE)
    rfl rfl rfl rfl (fun _ h => by cases h)

/-- C4: a call of `add_link` that connects an output socket to an input
socket of the same TypeDesc succeeds without inserting a converter, for either
value of `autoconvert`: the map of node instances and the number of allocated
instances are those before the call, and every instance but the destination
is untouched. The input socket is one of the destination's type: that is so
for a socket found by name or by index, and `hres` says it of a socket that is
passed directly. -/
theorem add_link_same_type_no_converter (reg : Registry) (g : NodeGraph)
    (from_node to_node : NodePtr) (from_ : String) (to_ : SocketKey) (autoconvert : Bool)
    (fi ti : NodeInstance) (fs ts : NodeSocket)
    (hf : g.deref from_node = some fi) (ht : g.deref to_node = some ti)
    (hfs : fi.type.find_output_name from_ = some fs)
    (hts : ti.type.find_input to_ = some ts)
    (hres : ∀ socket, to_ = SocketKey.resolved socket → ts ∈ ti.type.inputs)
    (hty : fs.typedesc = ts.typedesc) :
    ∃ g', g.add_link reg from_node from_ to_node to_ autoconvert = some (true, g') ∧
      g'.nodes = g.nodes ∧ g'.nodes.length = g.nodes.length ∧
      g'.heap.length = g.heap.length ∧
      (∀ q, q ≠ to_node → g'.deref q = g.deref q) ∧
      g'.input_binding to_node ts.name =
        some (InputInstance.mk none from_node (some fs) none) := by
  have hsock := NodeType.find_input_socket_mem hts hres
  refine ⟨_, NodeGraph.add_link_same_type autoconvert hf ht hfs hts hsock (Or.inr hty),
    ?_, ?_, ?_, ?_, ?_⟩
  · exact NodeGraph.store_nodes _ _ _
  · rw [NodeGraph.store_nodes]
  · exact NodeGraph.store_heap_length _ _ _
  · intro q hq
    exact NodeGraph.deref_store_ne g _ (Ne.symm hq)
  · exact NodeGraph.input_binding_store ht _ _

/-- Witness of C4: in `exGraph3` the float output of the instance at address 2
is linked to the float input of the instance at address 3. -/
theorem add_link_same_type_no_converter_witness :
    ∃ g', exGraph3.add_link exReg 2 "value" 3 (SocketKey.index 0) true = some (true, g') ∧
      g'.nodes = exGraph3.nodes ∧ g'.nodes.length = exGraph3.nodes.length ∧
      g'.heap.length = exGraph3.heap.length ∧
      (∀ q, q ≠ 3 → g'.deref q = exGraph3.deref q) ∧
      g'.input_binding 3 "value" =
        some (InputInstance.mk none 2 (some (exSocket "value" BVMType.BVM_FLOAT)) none) :=
  add_link_same_type_no_converter exReg exGraph3 2 3 "value" (SocketKey.index 0) true
    _ _ (exSocket "value" BVMType.BVM_FLOAT)
    (NodeSocket.mk "value" (TypeDesc.mk BVMType.BVM_FLOAT)
      (some (Value.mk (TypeDesc.mk BVMType.BVM_FLOAT) 0)) eNodeSocketValueType.VALUE_VARIABLE)
    rfl rfl rfl rfl (fun _ h => by cases h) rfl

/-- C6: with `autoconvert = true`, when `add_type_converter` yields a pair
with a null node, which it does only for sockets of different types without
a converter in the table, `add_link` returns false and the graph after the
call is the graph before it: the same node instances and the same binding of
the destination input. -/
theorem add_link_no_converter (reg : Registry) (g g1 : NodeGraph)
    (from_node to_node : NodePtr) (from_ : String) (to_ : SocketKey)
    (fi ti : NodeInstance) (fs ts : NodeSocket) (cv : SocketPair)
    (hf : g.deref from_node = some fi) (ht : g.deref to_node = some ti)
    (hfs : fi.type.find_output_name from_ = some fs)
    (hts : ti.type.find_input to_ = some ts)
    (hconv : g.add_type_converter reg (SocketPair.mk from_node from_) ts.typedesc = some (g1, cv))
    (hnull : cv.node = NULL) :
    fs.typedesc ≠ ts.typedesc ∧
      reg.converters fs.typedesc.base_type ts.typedesc.base_type = none ∧
      ∃ g', g.add_link reg from_node from_ to_node to_ true = some (false, g') ∧
        g' = g ∧ g'.nodes = g.nodes ∧ g'.heap.length = g.heap.length ∧
        g'.input_binding to_node ts.name = g.input_binding to_node ts.name := by
  obtain ⟨_, fi', fs', hf', hfs', hty, hnone⟩ := NodeGraph.add_type_converter_null hconv hnull
  simp only at hf' hfs'
  rw [hf] at hf'
  cases hf'
  rw [hfs] at hfs'
  cases hfs'
  exact ⟨hty, hnone, g, NodeGraph.add_link_null_converter hf ht hfs hts hconv hnull,
    rfl, rfl, rfl, rfl⟩

/-- Witness of C6: in `exGraph4` the float output of the instance at address 2
has no converter to the integer input of the instance at address 3. -/
theorem add_link_no_converter_witness :
    exSocket "value" BVMType.BVM_FLOAT ≠ exSocket "value" BVMType.BVM_INT ∧
      (exSocket "value" BVMType.BVM_FLOAT).typedesc ≠ (exSocket "value" BVMType.BVM_INT).typedesc ∧
      exReg.converters BVMType.BVM_FLOAT BVMType.BVM_INT = none ∧
      ∃ g', exGraph4.add_link exReg 2 "value" 3 (SocketKey.name "value") true = some (false, g') ∧
        g' = exGraph4 ∧ g'.nodes = exGraph4.nodes ∧ g'.heap.length = exGraph4.heap.length ∧
        g'.input_binding 3 "value" = exGraph4.input_binding 3 "value" :=
  ⟨by decide,
    add_link_no_converter exReg exGraph4 exGraph4 2 3 "value" (SocketKey.name "value") _ _
      (exSocket "value" BVMType.BVM_FLOAT) (exSocket "value" BVMType.BVM_INT)
      (SocketPair.mk NULL "") rfl rfl rfl rfl rfl rfl⟩

/-- C7: for a socket name that is not an input socket of the instance's
NodeType, the literal-taking `set_input_value` returns false, makes no call
of `Value::create` and leaves the instance as it was; so does the
literal-taking `set_output_value` for a name that is not an output socket. -/
theorem set_value_literal_unknown_socket {T : Type} (create : TypeDesc → T → Option Value)
    (self : NodeInstance) (name : String) (value : T) :
    ((∀ s ∈ self.type.inputs, s.name ≠ name) →
      self.set_input_value_T create name value = SetterOutcome.mk false self 0) ∧
    ((∀ s ∈ self.type.outputs, s.name ≠ name) →
      self.set_output_value_T create name value = SetterOutcome.mk false self 0) := by
  constructor
  · intro h
    have h1 : self.type.find_input_name name = none := find_socket_by_name_eq_none.mpr h
    simp [NodeInstance.set_input_value_T, h1]
  · intro h
    have h1 : self.type.find_output_name name = none := find_socket_by_name_eq_none.mpr h
    simp [NodeInstance.set_output_value_T, h1]

/-- Witness of C7: the type `SIN` has neither an input nor an output socket
named `scale`. -/
theorem set_value_literal_unknown_socket_witness :
    exSinInstance.set_input_value_T exCreate "scale" 3 = SetterOutcome.mk false exSinInstance 0 ∧
      exSinInstance.set_output_value_T exCreate "scale" 3
        = SetterOutcome.mk false exSinInstance 0 :=
  ⟨(set_value_literal_unknown_socket exCreate exSinInstance "scale" 3).1 (by decide),
    (set_value_literal_unknown_socket exCreate exSinInstance "scale" 3).2 (by decide)⟩

end bvm

namespace BParticles

/-! ### `AgeReachedEvent::filter` -/

theorem filter_step_eq {F : Type} (ops : FloatOps F) (gfs : TimeSpan F → F → F)
    (trigger_age : F) (interface : EventFilterInterface F) (i : Nat) :
    filter_step ops gfs trigger_age interface i =
      { interface with triggered := (interface.triggered ++
          (if age_reached ops trigger_age interface i
            then [(i, trigger_factor ops gfs trigger_age interface i)] else [])) } := by
  unfold filter_step age_reached trigger_factor
  generalize interface.indices.getD i 0 = p
  cases interface with
  | mk indices birth_times was_activated_before end_time time_span triggered =>
    simp only
    by_cases h1 : was_activated_before p = 0
    · by_cases h2 : ops.ge (ops.sub end_time (birth_times p)) trigger_age = true
      · by_cases h3 : ops.lt trigger_age
            (ops.sub (ops.sub end_time (birth_times p)) (time_span i).duration) = true
        · simp [h1, h2, h3, EventFilterInterface.trigger_particle]
        · simp [h1, h2, h3, EventFilterInterface.trigger_particle]
      · simp [h1, h2]
    · simp [h1]

theorem filter_fold_eq {F : Type} (ops : FloatOps F) (gfs : TimeSpan F → F → F)
    (trigger_age : F) (l : List Nat) :
    ∀ interface : EventFilterInterface F,
      l.foldl (filter_step ops gfs trigger_age) interface =
        { interface with triggered := (interface.triggered ++
            l.filterMap (fun i => if age_reached ops trigger_age interface i
              then some (i, trigger_factor ops gfs trigger_age interface i) else none)) } := by
  induction l with
  | nil => intro interface; simp
  | cons i rest ih =>
    intro interface
    have e1 : ∀ (X : List (Nat × F)) (j : Nat),
        age_reached ops trigger_age { interface with triggered := X } j
          = age_reached ops trigger_age interface j := fun _ _ => rfl
    have e2 : ∀ (X : List (Nat × F)) (j : Nat),
        trigger_factor ops gfs trigger_age { interface with triggered := X } j
          = trigger_factor ops gfs trigger_age interface j := fun _ _ => rfl
    rw [List.foldl_cons, filter_step_eq, ih]
    simp only [e1, e2, List.filterMap_cons]
    by_cases h : age_reached ops trigger_age interface i = true
    · simp [h]
    · simp [h]

theorem map_fst_filterMap_eq_filter {F : Type} (c : Nat → Bool) (f : Nat → F) (l : List Nat) :
    (l.filterMap (fun i => if c i then some (i, f i) else none)).map Prod.fst = l.filter c := by
  induction l with
  | nil => rfl
  | cons i rest ih =>
    by_cases h : c i = true
    · simp [List.filterMap_cons, h, ih]
    · simp [List.filterMap_cons, h, ih]

theorem mem_filterMap_trigger {F : Type} (c : Nat → Bool) (f : Nat → F) (l : List Nat)
    (i : Nat) (tf : F) :
    (i, tf) ∈ l.filterMap (fun i => if c i then some (i, f i) else none) ↔
      i ∈ l ∧ c i = true ∧ tf = f i := by
  rw [List.mem_filterMap]
  constructor
  · rintro ⟨j, hj, hjs⟩
    by_cases h : c j = true
    · simp only [h, if_true, Option.some.injEq, Prod.mk.injEq] at hjs
      obtain ⟨h1, h2⟩ := hjs
      subst h1
      exact ⟨hj, h, h2.symm⟩
    · simp [h] at hjs
  · rintro ⟨hi, hc, ht⟩
    exact ⟨i, hi, by simp [hc, ht]⟩

/-- The filter on `exInterface` with trigger age 1: the first particle is
triggered with factor 0, the second was activated before, the third is
triggered with its span factor 2 clamped to 1. -/
theorem filter_exInterface :
    (AgeReachedEvent.filter exOps exFactor 1 exInterface).triggered = [(0, 0), (2, 1)] := by
  decide

/-- The value `CLAMP(a, 0, 1)` leaves in `a`: 0 when `a` is below 0, else 1
when `a` is above 1, else `a` itself. -/
theorem CLAMP_unit_eq {F : Type} (ops : FloatOps F) (a : F) :
    CLAMP ops a ops.zero ops.one =
      if ops.lt a ops.zero = true then ops.zero
      else if ops.gt a ops.one = true then ops.one else a := by
  unfold CLAMP
  rfl

/-- The value `CLAMP(a, 0, 1)` leaves in `a` is neither below 0 nor above 1,
for operators under which 0 and 1 themselves are neither. -/
theorem CLAMP_unit_bounds {F : Type} (ops : FloatOps F) (a : F)
    (h00 : ops.lt ops.zero ops.zero = false) (h01 : ops.gt ops.zero ops.one = false)
    (h10 : ops.lt ops.one ops.zero = false) (h11 : ops.gt ops.one ops.one = false) :
    ops.lt (CLAMP ops a ops.zero ops.one) ops.zero = false ∧
      ops.gt (CLAMP ops a ops.zero ops.one) ops.one = false := by
  unfold CLAMP
  by_cases hl : ops.lt a ops.zero = true
  · simp only [hl, if_true]
    exact ⟨h00, h01⟩
  · by_cases hg : ops.gt a ops.one = true
    · simp only [hl, hg, if_true]
      exact ⟨h10, h11⟩
    · simp only [hl, hg]
      exact ⟨by simpa using hl, by simpa using hg⟩

/-- The time factor of a triggered particle is neither below 0 nor above 1,
for operators under which 0 and 1 themselves are neither. -/
theorem trigger_factor_bounds {F : Type} (ops : FloatOps F) (gfs : TimeSpan F → F → F)
    (trigger_age : F) (interface : EventFilterInterface F) (i : Nat)
    (h00 : ops.lt ops.zero ops.zero = false) (h01 : ops.gt ops.zero ops.one = false)
    (h10 : ops.lt ops.one ops.zero = false) (h11 : ops.gt ops.one ops.one = false) :
    ops.lt (trigger_factor ops gfs trigger_age interface i) ops.zero = false ∧
      ops.gt (trigger_factor ops gfs trigger_age interface i) ops.one = false := by
  unfold trigger_factor
  split
  · exact ⟨h00, h01⟩
  · exact CLAMP_unit_bounds ops _ h00 h01 h10 h11

/-- C10: the calls of `trigger_particle` that `AgeReachedEvent::filter` adds
concern exactly the particles of the set whose activation flag is unset and
for which end time minus birth time is at least the trigger age; each of
them is triggered once, with time factor 0 when the trigger age is smaller
than its age at the start of its time span and otherwise with the span factor
of birth time plus trigger age clamped to [0, 1]: 0 when that factor is below
0, 1 when it is above 1, the factor itself otherwise. The time factor passed
is never below 0 nor above 1, for any float operators under which 0 and 1
themselves are neither. Nothing else of the interface changes. -/
theorem age_reached_filter_triggers {F : Type} (ops : FloatOps F)
    (get_factor_safe : TimeSpan F → F → F) (trigger_age : F)
    (interface : EventFilterInterface F) :
    ∃ added : List (Nat × F),
      AgeReachedEvent.filter ops get_factor_safe trigger_age interface =
        { interface with triggered := interface.triggered ++ added } ∧
      (∀ e ∈ added, e.1 < interface.indices.length) ∧
      ∀ i, i < interface.indices.length →
        ((i ∈ added.map Prod.fst) ↔
          (interface.was_activated_before (interface.indices.getD i 0) = 0 ∧
            ops.ge (ops.sub interface.end_time
              (interface.birth_times (interface.indices.getD i 0))) trigger_age = true)) ∧
        (i ∈ added.map Prod.fst →
          (added.map Prod.fst).count i = 1 ∧
          ∀ tf, (i, tf) ∈ added →
            (tf = if ops.lt trigger_age
                  (ops.sub (ops.sub interface.end_time
                    (interface.birth_times (interface.indices.getD i 0)))
                    (interface.time_span i).duration) = true
                then ops.zero
                else if ops.lt (get_factor_safe (interface.time_span i)
                    (ops.add (interface.birth_times (interface.indices.getD i 0)) trigger_age))
                    ops.zero = true
                then ops.zero
                else if ops.gt (get_factor_safe (interface.time_span i)
                    (ops.add (interface.birth_times (interface.indices.getD i 0)) trigger_age))
                    ops.one = true
                then ops.one
                else get_factor_safe (interface.time_span i)
                  (ops.add (interface.birth_times (interface.indices.getD i 0)) trigger_age)) ∧
            (ops.lt ops.zero ops.zero = false → ops.gt ops.zero ops.one = false →
              ops.lt ops.one ops.zero = false → ops.gt ops.one ops.one = false →
              ops.lt tf ops.zero = false ∧ ops.gt tf ops.one = false)) := by
  refine ⟨(List.range interface.indices.length).filterMap
      (fun i => if age_reached ops trigger_age interface i
        then some (i, trigger_factor ops get_factor_safe trigger_age interface i) else none),
    filter_fold_eq ops get_factor_safe trigger_age _ interface, ?_, ?_⟩
  · rintro ⟨i, tf⟩ he
    rw [mem_filterMap_trigger] at he
    exact List.mem_range.mp he.1
  · intro i hi
    rw [map_fst_filterMap_eq_filter]
    constructor
    · rw [List.mem_filter]
      simp [age_reached, List.mem_range, hi]
    · intro hmem
      constructor
      · exact List.count_eq_one_of_mem ((List.nodup_range _).filter _) hmem
      · intro tf htf
        rw [mem_filterMap_trigger] at htf
        rw [htf.2.2]
        constructor
        · unfold trigger_factor
          rw [CLAMP_unit_eq]
        · intro h00 h01 h10 h11
          exact trigger_factor_bounds ops get_factor_safe trigger_age interface i
            h00 h01 h10 h11

/-- Witness of C10: the filter on `exInterface` with trigger age 1 triggers
the third particle of the set, whose span factor is 2, with factor 1. -/
theorem age_reached_filter_triggers_witness :
    ∃ added : List (Nat × Int),
      AgeReachedEvent.filter exOps exFactor 1 exInterface =
        { exInterface with triggered := exInterface.triggered ++ added } ∧
      2 ∈ added.map Prod.fst ∧
      ∀ tf, (2, tf) ∈ added →
        tf = 1 ∧ exOps.lt tf exOps.zero = false ∧ exOps.gt tf exOps.one = false := by
  obtain ⟨added, h1, _, h3⟩ := age_reached_filter_triggers exOps exFactor 1 exInterface
  have hmem : 2 ∈ added.map Prod.fst := (h3 2 (by decide)).1.mpr (by decide)
  refine ⟨added, h1, hmem, ?_⟩
  intro tf htf
  obtain ⟨heq, hb⟩ := ((h3 2 (by decide)).2 hmem).2 tf htf
  exact ⟨heq.trans (by decide), hb rfl rfl rfl rfl⟩

/-! ### `AgeReachedEvent::execute` -/

theorem foldl_set_activated {A : Type} (l : List Nat) :
    ∀ interface : EventExecuteInterface A,
      (l.foldl set_activated interface).indices = interface.indices ∧
      (l.foldl set_activated interface).other = interface.other ∧
      ∀ p, (l.foldl set_activated interface).was_activated_before p =
        if p ∈ l then 1 else interface.was_activated_before p := by
  induction l with
  | nil => intro interface; simp
  | cons x rest ih =>
    intro interface
    obtain ⟨h1, h2, h3⟩ := ih (set_activated interface x)
    rw [List.foldl_cons]
    refine ⟨h1, h2, ?_⟩
    intro p
    rw [h3 p]
    by_cases hp : p ∈ rest
    · simp [hp]
    · by_cases hx : p = x
      · simp [hp, hx, set_activated]
      · simp [hp, hx, set_activated]

theorem mark_activated_flags {A : Type} (interface : EventExecuteInterface A) :
    (mark_activated interface).indices = interface.indices ∧
    (mark_activated interface).other = interface.other ∧
    ∀ p, (mark_activated interface).was_activated_before p =
      if p ∈ interface.indices then 1 else interface.was_activated_before p :=
  foldl_set_activated interface.indices interface

/-- A filter call on a set whose particles all have their flag set triggers
nothing. -/
theorem filter_all_activated {F : Type} (ops : FloatOps F) (gfs : TimeSpan F → F → F)
    (trigger_age : F) (interface : EventFilterInterface F)
    (h : ∀ p ∈ interface.indices, interface.was_activated_before p ≠ 0) :
    AgeReachedEvent.filter ops gfs trigger_age interface = interface := by
  unfold AgeReachedEvent.filter
  rw [filter_fold_eq]
  have hnil : (List.range interface.indices.length).filterMap
      (fun i => if age_reached ops trigger_age interface i
        then some (i, trigger_factor ops gfs trigger_age interface i) else none) = [] := by
    apply List.eq_nil_iff_forall_not_mem.mpr
    rintro ⟨i, tf⟩ hmem
    rw [mem_filterMap_trigger] at hmem
    obtain ⟨hi, hc, _⟩ := hmem
    have hlt : i < interface.indices.length := List.mem_range.mp hi
    have hin : interface.indices.getD i 0 ∈ interface.indices := by
      rw [List.getD_eq_getElem _ _ hlt]
      exact List.getElem_mem _
    simp only [age_reached, Bool.and_eq_true, decide_eq_true_eq] at hc
    exact h _ hin hc.1
  rw [hnil]
  simp

/-- What a filter call triggers has its flag unset. -/
theorem filter_triggered_unset {F : Type} (ops : FloatOps F) (gfs : TimeSpan F → F → F)
    (trigger_age : F) (interface : EventFilterInterface F) :
    ∃ added, (AgeReachedEvent.filter ops gfs trigger_age interface).triggered
        = interface.triggered ++ added ∧
      ∀ e ∈ added, e.1 < interface.indices.length ∧
        interface.was_activated_before (interface.indices.getD e.1 0) = 0 := by
  refine ⟨(List.range interface.indices.length).filterMap
      (fun i => if age_reached ops trigger_age interface i
        then some (i, trigger_factor ops gfs trigger_age interface i) else none), ?_, ?_⟩
  · unfold AgeReachedEvent.filter
    rw [filter_fold_eq]
  · rintro ⟨i, tf⟩ hmem
    rw [mem_filterMap_trigger] at hmem
    obtain ⟨hi, hc, _⟩ := hmem
    refine ⟨List.mem_range.mp hi, ?_⟩
    simp only [age_reached, Bool.and_eq_true, decide_eq_true_eq] at hc
    exact hc.1

/-- C11, as stated, fails: `execute` ends by running the action of the event,
which reaches the same attributes. With `exClearAction`, which zeroes the
activation flags, the loop of `execute` sets the flag of every particle of the
set, the action clears them, the flag of particle index 0, set before the
call, is unset after it, and the filter call that follows on the same set
triggers all three particles. -/
theorem execute_with_clearing_action_fires_again :
    exInterfaceCleared.indices = exExecuteInterface.indices ∧
    exInterfaceCleared.was_activated_before =
      (AgeReachedEvent.execute exClearAction exExecuteInterface).was_activated_before ∧
    (∀ p ∈ exExecuteInterface.indices,
      (mark_activated exExecuteInterface).was_activated_before p = 1) ∧
    exExecuteInterface.was_activated_before 0 = 1 ∧
    (AgeReachedEvent.execute exClearAction exExecuteInterface).was_activated_before 0 = 0 ∧
    (AgeReachedEvent.filter exOps exFactor 1 exInterfaceCleared).triggered
      = [(0, 0), (1, 0), (2, 1)] :=
  ⟨rfl, rfl, by decide, rfl, rfl, by decide⟩

/-- C11, amended: `execute` sets the activation flag of every particle of the
set it is given, before the action runs, and clears none; when the action it
then runs clears no activation flag, this is the state `execute` leaves.
`filter` triggers no particle whose flag is set. So a filter call on that
particle set, reading the flags `execute` left, triggers none of its
particles, whatever the end time, the birth times, the time spans and the
trigger age. -/
theorem age_reached_fires_once {F A : Type} (ops : FloatOps F)
    (get_factor_safe : TimeSpan F → F → F) (trigger_age : F)
    (action : EventExecuteInterface A → EventExecuteInterface A)
    (executed : EventExecuteInterface A) (interface : EventFilterInterface F)
    (haction : ∀ p : Nat, (mark_activated executed).was_activated_before p ≠ 0 →
      (action (mark_activated executed)).was_activated_before p ≠ 0)
    (hset : interface.indices = executed.indices)
    (hflags : interface.was_activated_before =
      (AgeReachedEvent.execute action executed).was_activated_before) :
    (∀ p, (mark_activated executed).was_activated_before p =
      if p ∈ executed.indices then 1 else executed.was_activated_before p) ∧
    (∀ p ∈ executed.indices,
      (AgeReachedEvent.execute action executed).was_activated_before p ≠ 0) ∧
    (∀ p, executed.was_activated_before p ≠ 0 →
      (AgeReachedEvent.execute action executed).was_activated_before p ≠ 0) ∧
    (∃ added, (AgeReachedEvent.filter ops get_factor_safe trigger_age interface).triggered
        = interface.triggered ++ added ∧
      ∀ e ∈ added, e.1 < interface.indices.length ∧
        interface.was_activated_before (interface.indices.getD e.1 0) = 0) ∧
    AgeReachedEvent.filter ops get_factor_safe trigger_age interface = interface := by
  have hmark := (mark_activated_flags executed).2.2
  have hall : ∀ p ∈ executed.indices,
      (AgeReachedEvent.execute action executed).was_activated_before p ≠ 0 := by
    intro p hp
    apply haction
    rw [hmark p]
    simp [hp]
  refine ⟨hmark, hall, ?_, filter_triggered_unset ops get_factor_safe trigger_age interface, ?_⟩
  · intro p hp
    apply haction
    rw [hmark p]
    by_cases hmem : p ∈ executed.indices
    · simp [hmem]
    · simpa [hmem] using hp
  · apply filter_all_activated
    intro p hp
    rw [hflags]
    exact hall p (hset ▸ hp)

/-- Witness of C11 as amended: `execute` with the action `exAction` on the
particle set of `exInterface`, followed by a filter call with trigger age 1. -/
theorem age_reached_fires_once_witness :
    (∀ p, (mark_activated exExecuteInterface).was_activated_before p =
      if p ∈ exExecuteInterface.indices then 1 else exExecuteInterface.was_activated_before p) ∧
    (∀ p ∈ exExecuteInterface.indices,
      (AgeReachedEvent.execute exAction exExecuteInterface).was_activated_before p ≠ 0) ∧
    (∀ p, exExecuteInterface.was_activated_before p ≠ 0 →
      (AgeReachedEvent.execute exAction exExecuteInterface).was_activated_before p ≠ 0) ∧
    (∃ added, (AgeReachedEvent.filter exOps exFactor 1 exInterfaceAfter).triggered
        = exInterfaceAfter.triggered ++ added ∧
      ∀ e ∈ added, e.1 < exInterfaceAfter.indices.length ∧
        exInterfaceAfter.was_activated_before (exInterfaceAfter.indices.getD e.1 0) = 0) ∧
    AgeReachedEvent.filter exOps exFactor 1 exInterfaceAfter = exInterfaceAfter :=
  age_reached_fires_once exOps exFactor 1 exAction exExecuteInterface exInterfaceAfter
    (fun _ h => h) rfl rfl

/-- The filter on `exInterfaceAfter`, where `filter_exInterface` triggered two
particles before `execute`, triggers none. -/
theorem filter_exInterfaceAfter :
    (AgeReachedEvent.filter exOps exFactor 1 exInterfaceAfter).triggered = [] := by
  decide

end BParticles

namespace bvm

/-! ### The finalize pipeline -/

theorem mapFind_mem {β : Type} {m : List (String × β)} {k : String} {v : β}
    (h : mapFind m k = some v) : (k, v) ∈ m := by
  induction m with
  | nil => simp [mapFind] at h
  | cons hd tl ih =>
    obtain ⟨k', v'⟩ := hd
    by_cases hk : k' = k
    · simp only [mapFind, hk, if_true, Option.some.injEq] at h
      subst hk
      subst h
      exact List.mem_cons_self _ _
    · simp only [mapFind, hk, if_false] at h
      exact List.mem_cons_of_mem _ (ih h)

theorem NodeInstance.pass_source_mem {inst : NodeInstance} {b : InputInstance}
    (h : inst.pass_source = some b) : ∃ key, (key, b) ∈ inst.inputs := by
  unfold NodeInstance.pass_source at h
  split at h
  · cases h
  · exact ⟨_, mapFind_mem h⟩

/-- A rewired binding links to no pass node. -/
theorem NodeGraph.skip_pass_target (g : NodeGraph) (fuel : Nat) :
    ∀ b b1 : InputInstance, g.skip_pass fuel b = some b1 → b1.link_node ≠ NULL →
      ∃ t, g.deref b1.link_node = some t ∧ t.type.is_pass = false := by
  induction fuel with
  | zero =>
    intro b b1 h hne
    unfold NodeGraph.skip_pass at h
    by_cases h0 : b.link_node = NULL
    · simp only [h0, if_true, Option.some.injEq] at h
      subst h
      exact absurd h0 hne
    · simp only [h0, if_false] at h
      cases hd : g.deref b.link_node with
      | none => simp [hd] at h
      | some inst =>
        simp only [hd] at h
        by_cases hp : inst.type.is_pass = true
        · simp [hp] at h
        · simp only [hp, Bool.false_eq_true, if_false, Option.some.injEq] at h
          subst h
          exact ⟨inst, hd, by simpa using hp⟩
  | succ n ih =>
    intro b b1 h hne
    unfold NodeGraph.skip_pass at h
    by_cases h0 : b.link_node = NULL
    · simp only [h0, if_true, Option.some.injEq] at h
      subst h
      exact absurd h0 hne
    · simp only [h0, if_false] at h
      cases hd : g.deref b.link_node with
      | none => simp [hd] at h
      | some inst =>
        simp only [hd] at h
        by_cases hp : inst.type.is_pass = true
        · simp only [hp, if_true] at h
          cases hs : inst.pass_source with
          | none => simp [hs] at h
          | some up =>
            simp only [hs] at h
            exact ih up b1 h hne
        · simp only [hp, Bool.false_eq_true, if_false, Option.some.injEq] at h
          subst h
          exact ⟨inst, hd, by simpa using hp⟩

/-- A rewired binding links to an instance that the original binding reaches
through pass nodes. -/
theorem NodeGraph.skip_pass_reachable (g : NodeGraph) (fuel : Nat) :
    ∀ b b1 : InputInstance, g.skip_pass fuel b = some b1 → b1.link_node ≠ NULL →
      (b.link_node ≠ NULL → g.Reachable b.link_node) → g.Reachable b1.link_node := by
  induction fuel with
  | zero =>
    intro b b1 h hne hr
    unfold NodeGraph.skip_pass at h
    by_cases h0 : b.link_node = NULL
    · simp only [h0, if_true, Option.some.injEq] at h
      subst h
      exact absurd h0 hne
    · simp only [h0, if_false] at h
      cases hd : g.deref b.link_node with
      | none => simp [hd] at h
      | some inst =>
        simp only [hd] at h
        by_cases hp : inst.type.is_pass = true
        · simp [hp] at h
        · simp only [hp, Bool.false_eq_true, if_false, Option.some.injEq] at h
          subst h
          exact hr h0
  | succ n ih =>
    intro b b1 h hne hr
    unfold NodeGraph.skip_pass at h
    by_cases h0 : b.link_node = NULL
    · simp only [h0, if_true, Option.some.injEq] at h
      subst h
      exact absurd h0 hne
    · simp only [h0, if_false] at h
      cases hd : g.deref b.link_node with
      | none => simp [hd] at h
      | some inst =>
        simp only [hd] at h
        by_cases hp : inst.type.is_pass = true
        · simp only [hp, if_true] at h
          cases hs : inst.pass_source with
          | none => simp [hs] at h
          | some up =>
            simp only [hs] at h
            obtain ⟨key, hkey⟩ := NodeInstance.pass_source_mem hs
            exact ih up b1 h hne
              (fun hup => NodeGraph.Reachable.input b.link_node up.link_node inst key up
                (hr h0) hd hkey rfl hup)
        · simp only [hp, Bool.false_eq_true, if_false, Option.some.injEq] at h
          subst h
          exact hr h0

theorem mapOption_spec {α β : Type} (f : α → Option β) :
    ∀ (l : List α) (l1 : List β), mapOption f l = some l1 →
      (∀ y ∈ l1, ∃ x ∈ l, f x = some y) ∧
      (∀ (i : Nat) (y : β), l1[i]? = some y → ∃ x, l[i]? = some x ∧ f x = some y) ∧
      (∀ (i : Nat) (x : α), l[i]? = some x → ∃ y, l1[i]? = some y ∧ f x = some y) := by
  intro l
  induction l with
  | nil =>
    intro l1 h
    simp only [mapOption, Option.some.injEq] at h
    subst h
    simp
  | cons x rest ih =>
    intro l1 h
    unfold mapOption at h
    cases hx : f x with
    | none => simp [hx] at h
    | some y =>
      cases hr : mapOption f rest with
      | none => simp [hx, hr] at h
      | some ys =>
        simp only [hx, hr, Option.some.injEq] at h
        subst h
        obtain ⟨ih1, ih2, ih3⟩ := ih ys hr
        refine ⟨?_, ?_, ?_⟩
        · intro y' hy'
          rcases List.mem_cons.mp hy' with e | e
          · subst e
            exact ⟨x, List.mem_cons_self _ _, hx⟩
          · obtain ⟨x', hx', hf⟩ := ih1 y' e
            exact ⟨x', List.mem_cons_of_mem _ hx', hf⟩
        · intro i y' hi
          cases i with
          | zero =>
            simp only [List.getElem?_cons_zero, Option.some.injEq] at hi
            subst hi
            exact ⟨x, by simp, hx⟩
          | succ j =>
            simp only [List.getElem?_cons_succ] at hi ⊢
            exact ih2 j y' hi
        · intro i x' hi
          cases i with
          | zero =>
            simp only [List.getElem?_cons_zero, Option.some.injEq] at hi
            subst hi
            exact ⟨y, by simp, hx⟩
          | succ j =>
            simp only [List.getElem?_cons_succ] at hi ⊢
            exact ih3 j x' hi

theorem NodeGraph.skip_pass_inputs_spec {g : NodeGraph} {inst inst1 : NodeInstance}
    (h : g.skip_pass_inputs inst = some inst1) :
    inst1.type = inst.type ∧
      ∀ key b1, (key, b1) ∈ inst1.inputs →
        ∃ b, (key, b) ∈ inst.inputs ∧ g.skip_pass g.heap.length b = some b1 := by
  unfold NodeGraph.skip_pass_inputs at h
  cases hm : mapOption (fun kb : String × InputInstance =>
      match g.skip_pass g.heap.length kb.2 with
      | some b => some (kb.1, b)
      | none => none) inst.inputs with
  | none => simp [hm] at h
  | some inputs =>
    simp only [hm, Option.some.injEq] at h
    subst h
    refine ⟨rfl, ?_⟩
    intro key b1 hmem
    obtain ⟨kb, hkb, hf⟩ := (mapOption_spec _ _ _ hm).1 (key, b1) hmem
    cases hs : g.skip_pass g.heap.length kb.2 with
    | none => simp [hs] at hf
    | some b' =>
      simp only [hs, Option.some.injEq, Prod.mk.injEq] at hf
      obtain ⟨hk, hb⟩ := hf
      subst hb
      refine ⟨kb.2, ?_, hs⟩
      rw [← hk]
      exact hkb

theorem NodeGraph.skip_pass_nodes_spec {g g1 : NodeGraph} (h : g.skip_pass_nodes = some g1) :
    g1.nodes = g.nodes ∧
      (∀ p inst1, g1.deref p = some inst1 →
        ∃ inst, g.deref p = some inst ∧ g.skip_pass_inputs inst = some inst1) ∧
      (∀ p inst, g.deref p = some inst →
        ∃ inst1, g1.deref p = some inst1 ∧ g.skip_pass_inputs inst = some inst1) ∧
      (∀ o1 ∈ g1.outputs, ∃ o ∈ g.outputs, g.skip_pass_output o = some o1) := by
  unfold NodeGraph.skip_pass_nodes at h
  cases hh : mapOption (fun slot : Option NodeInstance =>
      match slot with
      | none => some none
      | some inst =>
        match g.skip_pass_inputs inst with
        | some inst1 => some (some inst1)
        | none => none) g.heap with
  | none => simp [hh] at h
  | some heap =>
    cases ho : mapOption g.skip_pass_output g.outputs with
    | none => simp [hh, ho] at h
    | some outputs =>
      simp only [hh, ho, Option.some.injEq] at h
      subst h
      obtain ⟨_, hh2, hh3⟩ := mapOption_spec _ _ _ hh
      refine ⟨rfl, ?_, ?_, ?_⟩
      · intro p inst1 hd
        cases p with
        | zero => simp [NodeGraph.deref] at hd
        | succ q =>
          simp only [NodeGraph.deref] at hd ⊢
          cases hq : heap[q]? with
          | none => simp [hq] at hd
          | some slot1 =>
            rw [hq] at hd
            simp only [Option.join] at hd
            subst hd
            obtain ⟨slot, hslot, hf⟩ := hh2 q (some inst1) hq
            cases slot with
            | none => simp at hf
            | some inst =>
              cases hs : g.skip_pass_inputs inst with
              | none => simp [hs] at hf
              | some inst' =>
                simp only [hs, Option.some.injEq] at hf
                subst hf
                exact ⟨inst, by simp [hslot], hs⟩
      · intro p inst hd
        cases p with
        | zero => simp [NodeGraph.deref] at hd
        | succ q =>
          simp only [NodeGraph.deref] at hd ⊢
          cases hq : g.heap[q]? with
          | none => simp [hq] at hd
          | some slot =>
            rw [hq] at hd
            simp only [Option.join] at hd
            subst hd
            obtain ⟨slot1, hslot1, hf⟩ := hh3 q (some inst) hq
            cases hs : g.skip_pass_inputs inst with
            | none => simp [hs] at hf
            | some inst' =>
              simp only [hs, Option.some.injEq] at hf
              subst hf
              exact ⟨inst', by simp [hslot1], rfl⟩
      · intro o1 ho1
        exact (mapOption_spec _ _ _ ho).1 o1 ho1

/-- After `skip_pass_nodes` every input link and every output link leads to
an instance that is not a pass node. -/
theorem NodeGraph.skip_pass_nodes_links {g g1 : NodeGraph} (h : g.skip_pass_nodes = some g1) :
    (∀ p inst1 key b1, g1.deref p = some inst1 → (key, b1) ∈ inst1.inputs →
      b1.link_node ≠ NULL → ∃ t, g1.deref b1.link_node = some t ∧ t.type.is_pass = false) ∧
    (∀ o1 ∈ g1.outputs, o1.link_node ≠ NULL →
      ∃ t, g1.deref o1.link_node = some t ∧ t.type.is_pass = false) := by
  obtain ⟨_, h1, h2, h3⟩ := NodeGraph.skip_pass_nodes_spec h
  have lift : ∀ q t, g.deref q = some t → t.type.is_pass = false →
      ∃ t1, g1.deref q = some t1 ∧ t1.type.is_pass = false := by
    intro q t hq hp
    obtain ⟨t1, ht1, hs⟩ := h2 q t hq
    refine ⟨t1, ht1, ?_⟩
    rw [(NodeGraph.skip_pass_inputs_spec hs).1]
    exact hp
  constructor
  · intro p inst1 key b1 hd hmem hne
    obtain ⟨inst, _, hs⟩ := h1 p inst1 hd
    obtain ⟨b, _, hb⟩ := (NodeGraph.skip_pass_inputs_spec hs).2 key b1 hmem
    obtain ⟨t, ht, hp⟩ := NodeGraph.skip_pass_target g _ b b1 hb hne
    exact lift _ t ht hp
  · intro o1 ho1 hne
    obtain ⟨o, _, hs⟩ := h3 o1 ho1
    unfold NodeGraph.skip_pass_output at hs
    cases hb : g.skip_pass g.heap.length
        (InputInstance.mk none o.link_node o.link_socket none) with
    | none => simp [hb] at hs
    | some b1 =>
      simp only [hb, Option.some.injEq] at hs
      subst hs
      obtain ⟨t, ht, hp⟩ := NodeGraph.skip_pass_target g _ _ b1 hb hne
      exact lift _ t ht hp

/-- What `skip_pass_nodes` links was reachable before it. -/
theorem NodeGraph.skip_pass_nodes_reachable {g g1 : NodeGraph}
    (h : g.skip_pass_nodes = some g1) (p : NodePtr) (hr : g1.Reachable p) : g.Reachable p := by
  obtain ⟨_, h1, _, h3⟩ := NodeGraph.skip_pass_nodes_spec h
  induction hr with
  | output o1 p ho1 hlink hne =>
    obtain ⟨o, ho, hs⟩ := h3 o1 ho1
    unfold NodeGraph.skip_pass_output at hs
    cases hb : g.skip_pass g.heap.length
        (InputInstance.mk none o.link_node o.link_socket none) with
    | none => simp [hb] at hs
    | some b1 =>
      simp only [hb, Option.some.injEq] at hs
      subst hs
      subst hlink
      exact NodeGraph.skip_pass_reachable g _ _ b1 hb hne
        (fun hn => NodeGraph.Reachable.output o o.link_node ho rfl hn)
  | input q p inst1 key b1 _ hd hmem hlink hne ih =>
    obtain ⟨inst, hdg, hs⟩ := h1 q inst1 hd
    obtain ⟨b, hbmem, hb⟩ := (NodeGraph.skip_pass_inputs_spec hs).2 key b1 hmem
    subst hlink
    exact NodeGraph.skip_pass_reachable g _ b b1 hb hne
      (fun hn => NodeGraph.Reachable.input q b.link_node inst key b ih hdg hbmem rfl hn)

theorem NodeGraph.ReachableWithin.mono {g : NodeGraph} {S T : NodePtr → Prop}
    (hST : ∀ q, S q → T q) {p : NodePtr} (h : g.ReachableWithin S p) :
    g.ReachableWithin T p := by
  induction h with
  | output o p ho hl hne => exact NodeGraph.ReachableWithin.output o p ho hl hne
  | input q p inst key b _ hS hd hmem hl hne ih =>
    exact NodeGraph.ReachableWithin.input q p inst key b ih (hST q hS) hd hmem hl hne

theorem NodeGraph.ReachableWithin.reachable {g : NodeGraph} {S : NodePtr → Prop}
    {p : NodePtr} (h : g.ReachableWithin S p) : g.Reachable p := by
  induction h with
  | output o p ho hl hne => exact NodeGraph.Reachable.output o p ho hl hne
  | input q p inst key b _ _ hd hmem hl hne ih =>
    exact NodeGraph.Reachable.input q p inst key b ih hd hmem hl hne

theorem NodeGraph.mem_link_targets {g : NodeGraph} {p r : NodePtr}
    (h : r ∈ g.link_targets p) :
    ∃ inst key b, g.deref p = some inst ∧ (key, b) ∈ inst.inputs ∧ b.link_node = r ∧
      r ≠ NULL := by
  unfold NodeGraph.link_targets at h
  cases hd : g.deref p with
  | none => simp [hd] at h
  | some inst =>
    simp only [hd, List.mem_filter, List.mem_map, decide_eq_true_eq] at h
    obtain ⟨⟨kb, hkb, hl⟩, hne⟩ := h
    exact ⟨inst, kb.1, kb.2, rfl, hkb, hl, hne⟩

/-- Every instance the backward walk visits is reachable from an output
through visited instances. -/
theorem NodeGraph.mark_sound (g : NodeGraph) (fuel : Nat) :
    ∀ worklist visited : List NodePtr,
      (∀ p ∈ worklist, g.ReachableWithin (fun q => q ∈ visited) p) →
      (∀ p ∈ visited, g.ReachableWithin (fun q => q ∈ visited) p) →
      ∀ p ∈ g.mark fuel worklist visited,
        g.ReachableWithin (fun q => q ∈ g.mark fuel worklist visited) p := by
  induction fuel with
  | zero =>
    intro worklist visited _ hv p hp
    simp only [NodeGraph.mark] at hp ⊢
    exact hv p hp
  | succ n ih =>
    intro worklist visited hw hv p hp
    cases worklist with
    | nil =>
      simp only [NodeGraph.mark] at hp ⊢
      exact hv p hp
    | cons x rest =>
      simp only [NodeGraph.mark] at hp ⊢
      by_cases hx : x ∈ visited
      · simp only [hx, if_true] at hp ⊢
        exact ih rest visited (fun r hr => hw r (List.mem_cons_of_mem _ hr)) hv p hp
      · simp only [hx, if_false] at hp ⊢
        have hsub : ∀ q, q ∈ visited → q ∈ x :: visited := fun q hq => List.mem_cons_of_mem _ hq
        have hxr : g.ReachableWithin (fun q => q ∈ x :: visited) x :=
          NodeGraph.ReachableWithin.mono hsub (hw x (List.mem_cons_self _ _))
        refine ih (g.link_targets x ++ rest) (x :: visited) ?_ ?_ p hp
        · intro r hr
          rcases List.mem_append.mp hr with hr | hr
          · obtain ⟨inst, key, b, hd, hmem, hl, hne⟩ := NodeGraph.mem_link_targets hr
            exact NodeGraph.ReachableWithin.input x r inst key b hxr (List.mem_cons_self _ _)
              hd hmem hl hne
          · exact NodeGraph.ReachableWithin.mono hsub (hw r (List.mem_cons_of_mem _ hr))
        · intro r hr
          rcases List.mem_cons.mp hr with e | e
          · rw [e]
            exact hxr
          · exact NodeGraph.ReachableWithin.mono hsub (hv r e)

theorem NodeGraph.used_nodes_sound (g : NodeGraph) :
    ∀ p ∈ g.used_nodes, g.ReachableWithin (fun q => q ∈ g.used_nodes) p := by
  unfold NodeGraph.used_nodes
  apply NodeGraph.mark_sound
  · intro p hp
    unfold NodeGraph.output_targets at hp
    simp only [List.mem_filter, List.mem_map, decide_eq_true_eq] at hp
    obtain ⟨⟨o, ho, hl⟩, hne⟩ := hp
    exact NodeGraph.ReachableWithin.output o p ho hl hne
  · intro p hp
    cases hp

theorem NodeGraph.remove_unused_nodes_deref (g : NodeGraph) {p : NodePtr}
    (hp : p ∈ g.used_nodes) : g.remove_unused_nodes.deref p = g.deref p := by
  cases p with
  | zero => rfl
  | succ q =>
    simp only [NodeGraph.deref, NodeGraph.remove_unused_nodes, List.getElem?_mapIdx]
    cases g.heap[q]? with
    | none => rfl
    | some slot => simp [hp]

theorem NodeGraph.remove_unused_nodes_reachable (g : NodeGraph) {p : NodePtr}
    (h : g.ReachableWithin (fun q => q ∈ g.used_nodes) p) :
    g.remove_unused_nodes.Reachable p := by
  induction h with
  | output o p ho hl hne => exact NodeGraph.Reachable.output o p ho hl hne
  | input q p inst key b _ hS hd hmem hl hne ih =>
    refine NodeGraph.Reachable.input q p inst key b ih ?_ hmem hl hne
    rw [NodeGraph.remove_unused_nodes_deref g hS]
    exact hd

theorem sum_filter_visit (f : Nat → Nat) (P Q : Nat → Bool) (q : Nat)
    (hPQ : ∀ r, r ≠ q → P r = Q r) (hP : P q = false) (hQ : Q q = true) :
    ∀ l : List Nat, l.Nodup → q ∈ l →
      ((l.filter P).map f).sum + f q = ((l.filter Q).map f).sum := by
  intro l
  induction l with
  | nil => intro _ h; cases h
  | cons a t ih =>
    intro hnd hq
    have hnd' := List.nodup_cons.mp hnd
    by_cases ha : a = q
    · subst ha
      have hsame : t.filter P = t.filter Q := by
        apply List.filter_congr
        intro r hr
        exact hPQ r (fun e => hnd'.1 (e ▸ hr))
      rw [List.filter_cons_of_neg (by simp [hP]), List.filter_cons_of_pos hQ, hsame,
        List.map_cons, List.sum_cons]
      omega
    · have hq' : q ∈ t := by
        rcases List.mem_cons.mp hq with e | e
        · exact absurd e.symm ha
        · exact e
      have ih' := ih hnd'.2 hq'
      have hPa := hPQ a ha
      cases hQa : Q a with
      | true =>
        rw [hQa] at hPa
        rw [List.filter_cons_of_pos hPa, List.filter_cons_of_pos hQa, List.map_cons,
          List.map_cons, List.sum_cons, List.sum_cons]
        omega
      | false =>
        rw [hQa] at hPa
        rw [List.filter_cons_of_neg (by simp [hPa]), List.filter_cons_of_neg (by simp [hQa])]
        exact ih'

theorem NodeGraph.link_targets_invalid (g : NodeGraph) (x : NodePtr)
    (hx : x = 0 ∨ g.heap.length < x) : g.link_targets x = [] := by
  unfold NodeGraph.link_targets
  cases hd : g.deref x with
  | none => rfl
  | some inst =>
    have := NodeGraph.deref_lt_length hd
    rcases hx with e | e
    · rw [e] at this
      exact absurd this.1 (Nat.lt_irrefl 0)
    · exact absurd (Nat.lt_of_lt_of_le e this.2) (Nat.lt_irrefl _)

theorem NodeGraph.unvisited_cost_visit (g : NodeGraph) (visited : List NodePtr) (x : NodePtr)
    (hx : x ∉ visited) :
    g.unvisited_cost (x :: visited) + (g.link_targets x).length
      ≤ g.unvisited_cost visited := by
  unfold NodeGraph.unvisited_cost
  by_cases h0 : x = 0
  · subst h0
    rw [NodeGraph.link_targets_invalid g 0 (Or.inl rfl)]
    have hsame : (List.range g.heap.length).filter (fun q => decide (q + 1 ∉ 0 :: visited))
        = (List.range g.heap.length).filter (fun q => decide (q + 1 ∉ visited)) := by
      apply List.filter_congr
      intro r _
      simp
    rw [hsame]
    exact Nat.le_refl _
  · obtain ⟨q, rfl⟩ := Nat.exists_eq_add_one_of_ne_zero h0
    by_cases hq : q < g.heap.length
    · have key := sum_filter_visit (fun q => 1 + (g.link_targets (q + 1)).length)
        (fun r => decide (r + 1 ∉ (q + 1) :: visited)) (fun r => decide (r + 1 ∉ visited)) q
        (by intro r hr; simp [hr]) (by simp) (by simpa using hx)
        (List.range g.heap.length) (List.nodup_range _) (List.mem_range.mpr hq)
      exact Nat.le_trans (Nat.add_le_add_left (Nat.le_add_left _ 1) _) (Nat.le_of_eq key)
    · rw [NodeGraph.link_targets_invalid g (q + 1) (Or.inr (by omega))]
      have hsame : (List.range g.heap.length).filter (fun r => decide (r + 1 ∉ (q + 1) :: visited))
          = (List.range g.heap.length).filter (fun r => decide (r + 1 ∉ visited)) := by
        apply List.filter_congr
        intro r hr
        have hne : r ≠ q := by
          intro e
          rw [e] at hr
          exact hq (List.mem_range.mp hr)
        simp [hne]
      rw [hsame]
      exact Nat.le_refl _

/-- With enough fuel the backward walk returns a set that holds the worklist
and the visited instances and is closed under input links. -/
theorem NodeGraph.mark_complete (g : NodeGraph) (fuel : Nat) :
    ∀ worklist visited : List NodePtr,
      worklist.length + g.unvisited_cost visited ≤ fuel →
      (∀ p ∈ visited, ∀ r ∈ g.link_targets p, r ∈ visited ∨ r ∈ worklist) →
      (∀ p ∈ visited, p ∈ g.mark fuel worklist visited) ∧
      (∀ p ∈ worklist, p ∈ g.mark fuel worklist visited) ∧
      (∀ p ∈ g.mark fuel worklist visited, ∀ r ∈ g.link_targets p,
        r ∈ g.mark fuel worklist visited) := by
  induction fuel with
  | zero =>
    intro worklist visited hfuel hinv
    have hw : worklist = [] := by
      apply List.length_eq_zero.mp
      omega
    subst hw
    simp only [NodeGraph.mark]
    refine ⟨fun p hp => hp, fun p hp => (by cases hp), ?_⟩
    intro p hp r hr
    rcases hinv p hp r hr with h | h
    · exact h
    · cases h
  | succ n ih =>
    intro worklist visited hfuel hinv
    cases worklist with
    | nil =>
      simp only [NodeGraph.mark]
      refine ⟨fun p hp => hp, fun p hp => (by cases hp), ?_⟩
      intro p hp r hr
      rcases hinv p hp r hr with h | h
      · exact h
      · cases h
    | cons x rest =>
      simp only [NodeGraph.mark]
      by_cases hx : x ∈ visited
      · simp only [hx, if_true]
        have hfuel' : rest.length + g.unvisited_cost visited ≤ n := by
          simp only [List.length_cons] at hfuel
          omega
        have hinv' : ∀ p ∈ visited, ∀ r ∈ g.link_targets p, r ∈ visited ∨ r ∈ rest := by
          intro p hp r hr
          rcases hinv p hp r hr with h | h
          · exact Or.inl h
          · rcases List.mem_cons.mp h with e | e
            · exact Or.inl (e ▸ hx)
            · exact Or.inr e
        obtain ⟨h1, h2, h3⟩ := ih rest visited hfuel' hinv'
        refine ⟨h1, ?_, h3⟩
        intro p hp
        rcases List.mem_cons.mp hp with e | e
        · exact h1 p (e ▸ hx)
        · exact h2 p e
      · simp only [hx, if_false]
        have hcost := NodeGraph.unvisited_cost_visit g visited x hx
        have hfuel' : (g.link_targets x ++ rest).length + g.unvisited_cost (x :: visited) ≤ n := by
          simp only [List.length_cons] at hfuel
          simp only [List.length_append]
          omega
        have hinv' : ∀ p ∈ x :: visited, ∀ r ∈ g.link_targets p,
            r ∈ x :: visited ∨ r ∈ g.link_targets x ++ rest := by
          intro p hp r hr
          rcases List.mem_cons.mp hp with e | e
          · subst e
            exact Or.inr (List.mem_append_left _ hr)
          · rcases hinv p e r hr with h | h
            · exact Or.inl (List.mem_cons_of_mem _ h)
            · rcases List.mem_cons.mp h with e' | e'
              · exact Or.inl (e' ▸ List.mem_cons_self _ _)
              · exact Or.inr (List.mem_append_right _ e')
        obtain ⟨h1, h2, h3⟩ := ih (g.link_targets x ++ rest) (x :: visited) hfuel' hinv'
        refine ⟨fun p hp => h1 p (List.mem_cons_of_mem _ hp), ?_, h3⟩
        intro p hp
        rcases List.mem_cons.mp hp with e | e
        · exact h1 p (e ▸ List.mem_cons_self _ _)
        · exact h2 p (List.mem_append_right _ e)

/-- The backward walk reaches every instance that is reachable from an output. -/
theorem NodeGraph.used_nodes_complete (g : NodeGraph) (p : NodePtr) (h : g.Reachable p) :
    p ∈ g.used_nodes := by
  have hfuel : g.output_targets.length + g.unvisited_cost [] ≤ g.mark_fuel := by
    unfold NodeGraph.unvisited_cost NodeGraph.mark_fuel
    have hall : (List.range g.heap.length).filter (fun q => decide (q + 1 ∉ ([] : List NodePtr)))
        = List.range g.heap.length := by
      apply List.filter_eq_self.mpr
      intro a _
      simp
    rw [hall]
  obtain ⟨_, h2, h3⟩ := NodeGraph.mark_complete g g.mark_fuel g.output_targets [] hfuel
    (fun p hp => by cases hp)
  induction h with
  | output o p ho hl hne =>
    apply h2
    unfold NodeGraph.output_targets
    simp only [List.mem_filter, List.mem_map, decide_eq_true_eq]
    exact ⟨⟨o, ho, hl⟩, hne⟩
  | input q p inst key b _ hd hmem hl hne ih =>
    apply h3 q ih
    unfold NodeGraph.link_targets
    simp only [hd, List.mem_filter, List.mem_map, decide_eq_true_eq]
    exact ⟨⟨(key, b), hmem, hl⟩, hne⟩

/-- Dead-node removal keeps exactly the registered instances that are reachable
from an output, and keeps them as they are. -/
theorem NodeGraph.remove_unused_nodes_keeps (g : NodeGraph) (name : String) (p : NodePtr) :
    ((name, p) ∈ g.remove_unused_nodes.nodes ↔ (name, p) ∈ g.nodes ∧ g.Reachable p) ∧
      (g.Reachable p → g.remove_unused_nodes.deref p = g.deref p) := by
  constructor
  · simp only [NodeGraph.remove_unused_nodes, List.mem_filter, decide_eq_true_eq]
    constructor
    · rintro ⟨h1, h2⟩
      exact ⟨h1, NodeGraph.ReachableWithin.reachable (NodeGraph.used_nodes_sound g p h2)⟩
    · rintro ⟨h1, h2⟩
      exact ⟨h1, NodeGraph.used_nodes_complete g p h2⟩
  · intro h
    exact NodeGraph.remove_unused_nodes_deref g (NodeGraph.used_nodes_complete g p h)

/-! ### Fuel of the pass-node walk -/

theorem NodeGraph.skip_pass_walk (g : NodeGraph) (fuel : Nat) :
    ∀ b r : InputInstance, g.skip_pass fuel b = some r →
      ∃ L, g.PassWalk b L r := by
  induction fuel with
  | zero =>
    intro b r h
    unfold NodeGraph.skip_pass at h
    by_cases h0 : b.link_node = NULL
    · simp only [h0, if_true, Option.some.injEq] at h
      subst h
      exact ⟨[], NodeGraph.PassWalk.unlinked b h0⟩
    · simp only [h0, if_false] at h
      cases hd : g.deref b.link_node with
      | none => simp [hd] at h
      | some inst =>
        simp only [hd] at h
        by_cases hp : inst.type.is_pass = true
        · simp [hp] at h
        · simp only [hp, Bool.false_eq_true, if_false, Option.some.injEq] at h
          subst h
          exact ⟨[], NodeGraph.PassWalk.producer b inst h0 hd (by simpa using hp)⟩
  | succ n ih =>
    intro b r h
    unfold NodeGraph.skip_pass at h
    by_cases h0 : b.link_node = NULL
    · simp only [h0, if_true, Option.some.injEq] at h
      subst h
      exact ⟨[], NodeGraph.PassWalk.unlinked b h0⟩
    · simp only [h0, if_false] at h
      cases hd : g.deref b.link_node with
      | none => simp [hd] at h
      | some inst =>
        simp only [hd] at h
        by_cases hp : inst.type.is_pass = true
        · simp only [hp, if_true] at h
          cases hs : inst.pass_source with
          | none => simp [hs] at h
          | some up =>
            simp only [hs] at h
            obtain ⟨L, hL⟩ := ih up r h
            exact ⟨b.link_node :: L, NodeGraph.PassWalk.skip b up r inst L h0 hd hp hs hL⟩
        · simp only [hp, Bool.false_eq_true, if_false, Option.some.injEq] at h
          subst h
          exact ⟨[], NodeGraph.PassWalk.producer b inst h0 hd (by simpa using hp)⟩

theorem NodeGraph.PassWalk.skip_pass_of {g : NodeGraph} {b r : InputInstance}
    {L : List NodePtr} (h : g.PassWalk b L r) :
    ∀ fuel, L.length ≤ fuel → g.skip_pass fuel b = some r := by
  induction h with
  | unlinked b h0 =>
    intro fuel _
    unfold NodeGraph.skip_pass
    simp [h0]
  | producer b inst h0 hd hp =>
    intro fuel _
    unfold NodeGraph.skip_pass
    simp [h0, hd, hp]
  | skip b up r inst rest h0 hd hp hs _ ih =>
    intro fuel hfuel
    cases fuel with
    | zero => simp at hfuel
    | succ n =>
      unfold NodeGraph.skip_pass
      simp only [h0, if_false, hd, hp, if_true, hs]
      exact ih n (by simpa using hfuel)

theorem NodeGraph.PassWalk.valid {g : NodeGraph} {b r : InputInstance}
    {L : List NodePtr} (h : g.PassWalk b L r) :
    ∀ a ∈ L, a ∈ (List.range g.heap.length).map (fun q => q + 1) := by
  induction h with
  | unlinked b h0 => intro a ha; cases ha
  | producer b inst h0 hd hp => intro a ha; cases ha
  | skip b up r inst rest h0 hd hp hs _ ih =>
    intro a ha
    rcases List.mem_cons.mp ha with e | e
    · have hlen := NodeGraph.deref_lt_length hd
      rw [e, List.mem_map]
      refine ⟨b.link_node - 1, List.mem_range.mpr ?_, ?_⟩
      · omega
      · exact Nat.sub_add_cancel hlen.1
    · exact ih a e

theorem NodeGraph.PassWalk.suffix {g : NodeGraph} {b r : InputInstance}
    {L : List NodePtr} (h : g.PassWalk b L r) :
    ∀ a ∈ L, ∃ inst up L2, g.deref a = some inst ∧ inst.pass_source = some up ∧
      g.PassWalk up L2 r ∧ L2.length < L.length ∧ L2 ⊆ L := by
  induction h with
  | unlinked b h0 => intro a ha; cases ha
  | producer b inst h0 hd hp => intro a ha; cases ha
  | skip b up r inst rest h0 hd hp hs hw ih =>
    intro a ha
    rcases List.mem_cons.mp ha with e | e
    · subst e
      exact ⟨inst, up, rest, hd, hs, hw, Nat.lt_succ_self _, List.subset_cons_self _ _⟩
    · obtain ⟨inst', up', L2, h1, h2, h3, h4, h5⟩ := ih a e
      refine ⟨inst', up', L2, h1, h2, h3, ?_, ?_⟩
      · simp only [List.length_cons]
        omega
      · exact fun x hx => List.mem_cons_of_mem _ (h5 hx)

theorem NodeGraph.PassWalk.nodup {g : NodeGraph} (n : Nat) :
    ∀ (b r : InputInstance) (L : List NodePtr), L.length ≤ n → g.PassWalk b L r →
      ∃ L', g.PassWalk b L' r ∧ L'.Nodup ∧ L' ⊆ L := by
  induction n with
  | zero =>
    intro b r L hlen h
    have hL : L = [] := List.length_eq_zero.mp (Nat.le_zero.mp hlen)
    subst hL
    exact ⟨[], h, List.nodup_nil, fun _ hx => hx⟩
  | succ n ih =>
    intro b r L hlen h
    cases h with
    | unlinked _ h0 => exact ⟨[], NodeGraph.PassWalk.unlinked b h0, List.nodup_nil, fun _ hx => hx⟩
    | producer _ inst h0 hd hp =>
      exact ⟨[], NodeGraph.PassWalk.producer b inst h0 hd hp, List.nodup_nil, fun _ hx => hx⟩
    | skip _ up _ inst rest h0 hd hp hs hw =>
      simp only [List.length_cons] at hlen
      by_cases hmem : b.link_node ∈ rest
      · obtain ⟨inst', up', L2, h1, h2, h3, h4, h5⟩ := NodeGraph.PassWalk.suffix hw _ hmem
        rw [hd] at h1
        cases h1
        rw [hs] at h2
        cases h2
        have hshort : g.PassWalk b (b.link_node :: L2) r :=
          NodeGraph.PassWalk.skip b up r inst L2 h0 hd hp hs h3
        obtain ⟨L', hL', hnd, hsub⟩ := ih b r (b.link_node :: L2)
          (by simp only [List.length_cons]; omega) hshort
        refine ⟨L', hL', hnd, ?_⟩
        intro x hx
        rcases List.mem_cons.mp (hsub hx) with e | e
        · exact e ▸ List.mem_cons_self _ _
        · exact List.mem_cons_of_mem _ (h5 e)
      · obtain ⟨L', hL', hnd, hsub⟩ := ih up r rest (by omega) hw
        refine ⟨b.link_node :: L', NodeGraph.PassWalk.skip b up r inst L' h0 hd hp hs hL', ?_, ?_⟩
        · exact List.nodup_cons.mpr ⟨fun hx => hmem (hsub hx), hnd⟩
        · intro x hx
          rcases List.mem_cons.mp hx with e | e
          · exact e ▸ List.mem_cons_self _ _
          · exact List.mem_cons_of_mem _ (hsub e)

/-- The fuel `skip_pass_nodes` gives to `skip_pass`, the number of instance
slots, is enough: a rewiring that succeeds with any fuel succeeds with it, so
running out of fuel means the walk is caught in a cycle of pass nodes. -/
theorem NodeGraph.skip_pass_fuel_enough (g : NodeGraph) (fuel : Nat) (b r : InputInstance)
    (h : g.skip_pass fuel b = some r) : g.skip_pass g.heap.length b = some r := by
  obtain ⟨L, hL⟩ := NodeGraph.skip_pass_walk g fuel b r h
  obtain ⟨L', hL', hnd, _⟩ := NodeGraph.PassWalk.nodup L.length b r L (Nat.le_refl _) hL
  apply NodeGraph.PassWalk.skip_pass_of hL'
  have hsub : L' ⊆ (List.range g.heap.length).map (fun q => q + 1) :=
    fun a ha => NodeGraph.PassWalk.valid hL' a ha
  have := (List.Nodup.subperm hnd hsub).length_le
  simpa using this

/-! ### The postcondition of `finalize` -/

/-- C8: on every graph on which `finalize` completes, each remaining node
instance exists, has a NodeType that is not flagged `is_pass`, and is
reachable by following input links backward from the link of some graph
output, in the finalized graph and already in the graph before `finalize`;
so a node with no path to any graph output is absent. -/
theorem finalize_postcondition (g g' : NodeGraph) (h : g.finalize = some g') :
    (∀ name p, (name, p) ∈ g'.nodes →
      (∃ inst, g'.deref p = some inst ∧ inst.type.is_pass = false) ∧
        g'.Reachable p ∧ g.Reachable p) ∧
    (∀ name p, (¬ g'.Reachable p ∨ ¬ g.Reachable p) → (name, p) ∉ g'.nodes) := by
  have key : ∀ name p, (name, p) ∈ g'.nodes →
      (∃ inst, g'.deref p = some inst ∧ inst.type.is_pass = false) ∧
        g'.Reachable p ∧ g.Reachable p := by
    intro name p hmem
    unfold NodeGraph.finalize at h
    cases hs : g.skip_pass_nodes with
    | none => simp [hs] at h
    | some g1 =>
      simp only [hs, Option.some.injEq] at h
      subst h
      have hused : p ∈ g1.used_nodes := by
        simp only [NodeGraph.remove_unused_nodes, List.mem_filter, decide_eq_true_eq] at hmem
        exact hmem.2
      have hrw := NodeGraph.used_nodes_sound g1 p hused
      obtain ⟨hin, hout⟩ := NodeGraph.skip_pass_nodes_links hs
      refine ⟨?_, NodeGraph.remove_unused_nodes_reachable g1 hrw,
        NodeGraph.skip_pass_nodes_reachable hs p (NodeGraph.ReachableWithin.reachable hrw)⟩
      rw [NodeGraph.remove_unused_nodes_deref g1 hused]
      cases hrw with
      | output o p ho hl hne =>
        subst hl
        exact hout o ho hne
      | input q p inst key b _ _ hd hm hl hne =>
        subst hl
        exact hin q inst key b hd hm hne
  refine ⟨key, ?_⟩
  intro name p hnot hmem
  obtain ⟨_, h1, h2⟩ := key name p hmem
  rcases hnot with e | e
  · exact e h1
  · exact e h2

/-- Witness of C8: `exPassGraph` finalizes; the pass node `P` and the unlinked
`C` are gone, `B` and `A` remain. -/
theorem finalize_postcondition_witness :
    ∃ g', exPassGraph.finalize = some g' ∧ g'.nodes = [("B", 1), ("A", 3)] ∧
      ((∀ name p, (name, p) ∈ g'.nodes →
        (∃ inst, g'.deref p = some inst ∧ inst.type.is_pass = false) ∧
          g'.Reachable p ∧ exPassGraph.Reachable p) ∧
      (∀ name p, (¬ g'.Reachable p ∨ ¬ exPassGraph.Reachable p) → (name, p) ∉ g'.nodes)) :=
  ⟨_, rfl, rfl, finalize_postcondition exPassGraph _ rfl⟩

end bvm
